import Mathlib

/-!
# fake-sms: the registry store and the scrapers of `main.go`

A shallow embedding of `src/main.go`.  Go functions become Lean functions
with the same names.  Everything the Go code calls but does not define
(the operating system, `path/filepath`, `encoding/json`, the network and the
`soup` HTML package) is modelled explicitly and kept apart from the embedded
code:

* the file system is a map from path strings to entries and is threaded
  through every operation of the store;
* `log.Fatal*` and Go run-time panics end the run and are the two
  constructors of `Failure`;
* `encoding/json` is a parameter (`EncodingJSON`) of the store operations;
  `goJSON` is a concrete codec for it, proved to read back what it writes;
* a parsed HTML page is a tree of nodes, and the searches of `soup` are
  functions on it; fetching and parsing are a parameter (`Web`).
-/

set_option linter.dupNamespace false

namespace FakeSMS

/-! ## Data model (main.go, lines 19-37) -/

/-- Number: a struct that represents a number of the registry
(`type Number struct`, main.go:20). -/
structure Number where
  Country : String
  Number : String
  CreatedAt : String
  deriving DecidableEq, Repr

/-- Message: a struct which represents a received message
(`type Message struct`, main.go:27). -/
structure Message where
  Body : String
  CreatedAt : String
  Originator : String
  deriving DecidableEq, Repr

/-- Numbers: a list of `Number` (`type Numbers []Number`). -/
abbrev Numbers := List Number

/-- Messages: a list of `Message` (`type Messages []Message`). -/
abbrev Messages := List Message

/-- The two ways a run of the program ends early: `log.Fatal*` (the message
is logged and the process exits with status 1) and a Go run-time panic. -/
inductive Failure where
  | fatal (msg : String)
  | panic (msg : String)
  deriving DecidableEq, Repr

/-- The run-time panic of a slice expression whose bounds are out of range. -/
def sliceBoundsPanic : Failure :=
  .panic "runtime error: slice bounds out of range"

/-- The run-time panic of a field access through a nil pointer. -/
def nilDerefPanic : Failure :=
  .panic "runtime error: invalid memory address or nil pointer dereference"

/-! ## Operating system: environment and file system -/

/-- The process environment: `os.LookupEnv` is application. -/
abbrev Env := String → Option String

/-- Model of `os.LookupEnv`: the value, or `none` when the variable is unset. -/
def LookupEnv (env : Env) (key : String) : Option String := env key

/-- Model of `os.Getenv`: the value, or the empty string when unset. -/
def Getenv (env : Env) (key : String) : String := (env key).getD ""

/-- What a path names: a directory, a regular file with its content, or an
entry the process is not permitted to touch. -/
inductive Entry where
  | dir
  | file (data : String)
  | denied
  deriving DecidableEq, Repr

/-- The file-system state: a map from path strings to entries.  Paths are
opaque keys; the hierarchy above a key is not modelled. -/
abbrev FS := String → Option Entry

/-- The errors of the `os` calls, as far as `os.IsNotExist` tells them apart. -/
inductive OSError where
  | notExist
  | other
  deriving DecidableEq, Repr

/-- The entry a path names; the empty path names nothing. -/
def FS.get (fs : FS) (name : String) : Option Entry :=
  if name = "" then none else fs name

/-- The state with `name` bound to `e`. -/
def FS.set (fs : FS) (name : String) (e : Entry) : FS :=
  fun p => if p = name then some e else fs p

/-- Model of `os.Stat`, keeping only the error. -/
def Stat (fs : FS) (name : String) : Option OSError :=
  match fs.get name with
  | none => some .notExist
  | some .denied => some .other
  | some _ => none

/-- Model of `os.IsNotExist`. -/
def IsNotExist (err : Option OSError) : Bool :=
  match err with
  | some .notExist => true
  | _ => false

/-- Model of `os.MkdirAll`: nothing to do for a directory, an error when the
path is taken by something else or is empty, a new directory otherwise. -/
def MkdirAll (fs : FS) (path : String) : Option OSError × FS :=
  if path = "" then (some .notExist, fs)
  else
    match fs path with
    | some .dir => (none, fs)
    | some _ => (some .other, fs)
    | none => (none, fs.set path .dir)

/-- Model of `ioutil.WriteFile`: replaces or creates a regular file. -/
def WriteFile (fs : FS) (name : String) (data : String) : Option OSError × FS :=
  if name = "" then (some .notExist, fs)
  else
    match fs name with
    | some .dir => (some .other, fs)
    | some .denied => (some .other, fs)
    | _ => (none, fs.set name (.file data))

/-- Model of `ioutil.ReadFile`. -/
def ReadFile (fs : FS) (name : String) : Except OSError String :=
  match fs.get name with
  | some (.file data) => .ok data
  | none => .error .notExist
  | some _ => .error .other

/-! ## `path/filepath` (Unix) -/

/-- The components of a path: the text between slashes. -/
def splitSlash : List Char → List (List Char)
  | [] => [[]]
  | c :: cs =>
    if c = '/' then [] :: splitSlash cs
    else
      match splitSlash cs with
      | [] => [[c]]
      | h :: t => (c :: h) :: t

/-- One step of `filepath.Clean` over the components.  `out` is the cleaned
prefix, last component first. -/
def cleanStep (rooted : Bool) (out : List (List Char)) (comp : List Char) :
    List (List Char) :=
  if comp = [] ∨ comp = ['.'] then out
  else if comp = ['.', '.'] then
    match out with
    | top :: rest =>
      if top ≠ ['.', '.'] then rest
      else if rooted then out else comp :: out
    | [] => if rooted then [] else [comp]
  else comp :: out

/-- Model of `filepath.Clean`: the shortest path equivalent to `path` by
purely lexical processing. -/
def Clean (path : String) : String :=
  if path = "" then "."
  else
    let rooted := path.data.head? = some '/'
    let out := (splitSlash path.data).foldl (cleanStep rooted) []
    let body := String.mk (List.intercalate ['/'] out.reverse)
    let s := if rooted then "/" ++ body else body
    if s = "" then "." else s

/-- Model of `filepath.Join`: empty leading elements are ignored, the rest is
joined with slashes and cleaned. -/
def Join : List String → String
  | [] => ""
  | e :: es => if e ≠ "" then Clean (String.intercalate "/" (e :: es)) else Join es

/-! ## `encoding/json` as a parameter -/

/-- The two `encoding/json` calls of the store, for the type `Numbers`.
`json.Marshal` cannot fail on a slice of structs of strings, so it is total
here and the store's `Failed to serialize` branches are unreachable. -/
structure EncodingJSON where
  Marshal : Numbers → String
  Unmarshal : String → Option Numbers

/-! ## The registry store (main.go, lines 43-161) -/

/-- The directory of the registry, main.go:56-60: the value of
`FAKE_SMS_DB_DIR` when set, `$HOME/.fake-sms` otherwise. -/
def dbDir (env : Env) : String :=
  match LookupEnv env "FAKE_SMS_DB_DIR" with
  | some dbPath => dbPath
  | none => Join [Getenv env "HOME", ".fake-sms"]

/-- The payload written to a fresh registry file, main.go:73. -/
def emptyArray : String := "[\n]\n"

/-- Embedding of `(*DB).getDBPath`, main.go:47-81. -/
def getDBPath (env : Env) (fs : FS) : Except Failure (String × FS) :=
  let dbPath := dbDir env
  let afterDir : Except Failure FS :=
    if IsNotExist (Stat fs dbPath) then
      match MkdirAll fs dbPath with
      | (some _, _) => .error (.fatal ("Failed to create DB directory at " ++ dbPath ++ "\n"))
      | (none, fs1) => .ok fs1
    else .ok fs
  match afterDir with
  | .error e => .error e
  | .ok fs1 =>
    let dbPath := Join [dbPath, "db.json"]
    if IsNotExist (Stat fs1 dbPath) then
      match WriteFile fs1 dbPath emptyArray with
      | (some _, _) => .error (.fatal ("Faild to create DB file at " ++ dbPath ++ "\n"))
      | (none, fs2) => .ok (dbPath, fs2)
    else .ok (dbPath, fs1)

/-- The read-and-decode prefix shared by the three store operations
(main.go:84-96, 113-125, 131-143): the path, the state left by `getDBPath`
and the decoded registry. -/
def loadDB (J : EncodingJSON) (env : Env) (fs : FS) :
    Except Failure (String × FS × Numbers) :=
  match getDBPath env fs with
  | .error e => .error e
  | .ok (dbPath, fs1) =>
    match ReadFile fs1 dbPath with
    | .error _ => .error (.fatal ("Failed to read DB file at " ++ dbPath ++ "\n"))
    | .ok data =>
      match J.Unmarshal data with
      | none => .error (.fatal ("Failed to de-serialize DB file " ++ dbPath ++ "\n"))
      | some numbers => .ok (dbPath, fs1, numbers)

/-- The serialise-and-write suffix shared by `addToDB` and `deleteFromDB`
(main.go:100-109, 151-160). -/
def saveDB (J : EncodingJSON) (dbPath : String) (fs : FS) (numbers : Numbers) :
    Except Failure FS :=
  match WriteFile fs dbPath (J.Marshal numbers) with
  | (some _, _) => .error (.fatal ("Failed to save DB file " ++ dbPath ++ "\n"))
  | (none, fs1) => .ok fs1

/-- Embedding of `(*DB).addToDB`, main.go:83-110. -/
def addToDB (J : EncodingJSON) (env : Env) (number : Number) (fs : FS) :
    Except Failure FS :=
  match loadDB J env fs with
  | .error e => .error e
  | .ok (dbPath, fs1, numbers) => saveDB J dbPath fs1 (numbers ++ [number])

/-- Embedding of `(*DB).getFromDB`, main.go:112-128. -/
def getFromDB (J : EncodingJSON) (env : Env) (fs : FS) :
    Except Failure (Numbers × FS) :=
  match loadDB J env fs with
  | .error e => .error e
  | .ok (_, fs1, numbers) => .ok (numbers, fs1)

/-- The Go slice expression `xs[:hi]`. -/
def sliceTo {α : Type} (xs : List α) (hi : Int) : Except Failure (List α) :=
  if hi < 0 ∨ (xs.length : Int) < hi then .error sliceBoundsPanic
  else .ok (xs.take hi.toNat)

/-- The Go slice expression `xs[lo:]`. -/
def sliceFrom {α : Type} (xs : List α) (lo : Int) : Except Failure (List α) :=
  if lo < 0 ∨ (xs.length : Int) < lo then .error sliceBoundsPanic
  else .ok (xs.drop lo.toNat)

/-- Embedding of `(*DB).deleteFromDB`, main.go:130-161. -/
def deleteFromDB (J : EncodingJSON) (env : Env) (idx : Int) (fs : FS) :
    Except Failure FS :=
  match loadDB J env fs with
  | .error e => .error e
  | .ok (dbPath, fs1, numbers) =>
    if idx > (numbers.length : Int) - 1 then
      .error (.fatal "Number does not exist to be deleted from DB\n")
    else
      match sliceTo numbers idx with
      | .error e => .error e
      | .ok front =>
        match sliceFrom numbers (idx + 1) with
        | .error e => .error e
        | .ok back => saveDB J dbPath fs1 (front ++ back)

/-! ## HTML documents and the `soup` package

`github.com/anaskhan96/soup` wraps the node tree of `golang.org/x/net/html`.
A `Root` is a pointer to a node together with an error; the search functions
walk the tree below the pointer depth first. -/

/-- A node of a parsed HTML document (`html.Node`): text, comment or element
with its attributes and children in document order. -/
inductive Node where
  | text (data : String)
  | comment (data : String)
  | element (tag : String) (attr : List (String × String)) (children : List Node)
  deriving Repr

/-- The children of a node (`FirstChild` and its `NextSibling` chain). -/
def Node.children : Node → List Node
  | .element _ _ cs => cs
  | _ => []

/-- The `Data` field of a node: the tag of an element, the text otherwise. -/
def Node.data : Node → String
  | .element tag _ _ => tag
  | .text d => d
  | .comment d => d

/-- The struct `soup.Root`: `Pointer` is nil (`none`) exactly in the roots
that the package returns for a failed search, which carry an `Error`. -/
structure Root where
  Pointer : Option Node
  NodeValue : String
  Error : Option String
  deriving Repr

/-- The root the package builds for a node it found. -/
def Root.ofNode (n : Node) : Root := ⟨some n, n.data, none⟩

/-- The root the package returns when a search finds nothing. -/
def Root.notFound (args : List String) : Root :=
  ⟨none, "", some ("element " ++ String.intercalate " " args ++ " not found")⟩

/-- The white space of `unicode.IsSpace`, which `strings.Fields` splits on. -/
def isSpace (c : Char) : Bool :=
  c = '\t' ∨ c = '\n' ∨ c = '\x0b' ∨ c = '\x0c' ∨ c = '\r' ∨ c = ' ' ∨
  c.toNat = 0x85 ∨ c.toNat = 0xA0 ∨ c.toNat = 0x1680 ∨
  (0x2000 ≤ c.toNat ∧ c.toNat ≤ 0x200A) ∨ c.toNat = 0x2028 ∨ c.toNat = 0x2029 ∨
  c.toNat = 0x202F ∨ c.toNat = 0x205F ∨ c.toNat = 0x3000

/-- Model of `strings.Fields` on characters: the maximal runs of non-space
characters.  The accumulator `cur` holds the current run, reversed. -/
def fieldsAux : List Char → List Char → List (List Char)
  | [], cur => if cur = [] then [] else [cur.reverse]
  | c :: cs, cur =>
    if isSpace c then
      (if cur = [] then [] else [cur.reverse]) ++ fieldsAux cs []
    else fieldsAux cs (c :: cur)

/-- Model of `strings.Fields`. -/
def Fields (s : String) : List String := (fieldsAux s.data []).map String.mk

/-- The attribute tests of the package: `attributeAndValueEquals` for a
strict search, `attributeContainsValue` (one of the space-separated values
equals `val`) otherwise. -/
def attrMatches (strict : Bool) (key val : String) (a : String × String) : Bool :=
  if strict then a.1 == key && a.2 == val
  else a.1 == key && (Fields a.2).contains val

/-- How many times the search of `findAllofem` records an element with this
tag and these attributes: once for a tag-only search on a matching tag, once
per matching attribute for a tag-and-attribute search.  `main.go` passes one
or three arguments; other argument lists match nothing. -/
def matchCount (strict : Bool) (args : List String) (tag : String)
    (attr : List (String × String)) : Nat :=
  match args with
  | [name] => if tag = name then 1 else 0
  | [name, key, val] =>
    if tag = name then (attr.filter (attrMatches strict key val)).length else 0
  | _ => 0

mutual
/-- Model of the package's `findOnce`: the first node in depth-first order
that matches, the start node itself only when `uni` is set. -/
def findOnce (args : List String) (strict : Bool) (uni : Bool) : Node → Option Node
  | .element tag attr children =>
    if uni && decide (0 < matchCount strict args tag attr) then
      some (.element tag attr children)
    else findOnceList args strict children
  | .text _ => none
  | .comment _ => none
/-- The loop of `findOnce` over a chain of siblings. -/
def findOnceList (args : List String) (strict : Bool) : List Node → Option Node
  | [] => none
  | c :: cs =>
    match findOnce args strict true c with
    | some p => some p
    | none => findOnceList args strict cs
end

mutual
/-- Model of the closure `f` of the package's `findAllofem`: every match in
depth-first order, the start node itself only when `uni` is set. -/
def findAllofemFrom (args : List String) (strict : Bool) (uni : Bool) : Node → List Node
  | .element tag attr children =>
    (if uni then List.replicate (matchCount strict args tag attr) (.element tag attr children)
     else []) ++ findAllofemList args strict children
  | .text _ => []
  | .comment _ => []
/-- The loop of `findAllofem` over a chain of siblings. -/
def findAllofemList (args : List String) (strict : Bool) : List Node → List Node
  | [] => []
  | c :: cs => findAllofemFrom args strict true c ++ findAllofemList args strict cs
end

/-- Model of the package's `findAllofem`. -/
def findAllofem (n : Node) (args : List String) (strict : Bool) : List Node :=
  findAllofemFrom args strict false n

/-- The search behind `Find` and `FindStrict`.  The package reads the
children of `r.Pointer` without a nil check, so a root without a node
panics. -/
def Root.findWith (strict : Bool) (r : Root) (args : List String) : Except Failure Root :=
  match r.Pointer with
  | none => .error nilDerefPanic
  | some n =>
    match findOnce args strict false n with
    | none => .ok (Root.notFound args)
    | some t => .ok (Root.ofNode t)

/-- Model of `Root.Find`. -/
def Root.Find (r : Root) (args : List String) : Except Failure Root :=
  r.findWith false args

/-- Model of `Root.FindStrict`. -/
def Root.FindStrict (r : Root) (args : List String) : Except Failure Root :=
  r.findWith true args

/-- The search behind `FindAll` and `FindAllStrict`; it panics on a root
without a node for the same reason as `Root.findWith`. -/
def Root.findAllWith (strict : Bool) (r : Root) (args : List String) :
    Except Failure (List Root) :=
  match r.Pointer with
  | none => .error nilDerefPanic
  | some n => .ok ((findAllofem n args strict).map Root.ofNode)

/-- Model of `Root.FindAll`. -/
def Root.FindAll (r : Root) (args : List String) : Except Failure (List Root) :=
  r.findAllWith false args

/-- Model of `Root.FindAllStrict`. -/
def Root.FindAllStrict (r : Root) (args : List String) : Except Failure (List Root) :=
  r.findAllWith true args

/-- Whether a text consists of one or more characters of the class `\s`
(the package's regular expression `^\s+$`). -/
def isBlank (s : String) : Bool :=
  !s.data.isEmpty &&
    s.data.all (fun c => c = '\t' ∨ c = '\n' ∨ c = '\x0c' ∨ c = '\r' ∨ c = ' ')

/-- The walk of `Root.Text` over the children: the data of the first text
child that is not blank, the empty string when there is none. -/
def textOf : List Node → String
  | [] => ""
  | .text data :: rest => if isBlank data then textOf rest else data
  | .comment _ :: rest => textOf rest
  | .element _ _ _ :: rest => textOf rest

/-- Model of `Root.Text`. -/
def Root.Text (r : Root) : Except Failure String :=
  match r.Pointer with
  | none => .error nilDerefPanic
  | some n => .ok (textOf n.children)

mutual
/-- The text a node contributes to `Root.FullText`: its own data for a text
node, the text of its children for an element. -/
def fullText : Node → List Char
  | .text data => data.data
  | .comment _ => []
  | .element _ _ children => fullTextList children
/-- The text of a chain of siblings, in document order. -/
def fullTextList : List Node → List Char
  | [] => []
  | c :: cs => fullText c ++ fullTextList cs
end

/-- Model of `Root.FullText`: all text below the node, nested markup
included. -/
def Root.FullText (r : Root) : Except Failure String :=
  match r.Pointer with
  | none => .error nilDerefPanic
  | some n => .ok (String.mk (fullTextList n.children))

/-- The Go index expression `xs[i]`. -/
def index {α : Type} (xs : List α) (i : Nat) : Except Failure α :=
  match xs.get? i with
  | some x => .ok x
  | none => .error (.panic "runtime error: index out of range")

/-! ## The scrapers (main.go, lines 401-501) -/

/-- The constant `pageURL`, main.go:402. -/
def pageURL : String := "https://receive-smss.com/"

/-- The constant `cookieName`, main.go:403. -/
def cookieName : String := "__cfduid"

/-- The constant `smsEndpoint`, main.go:404. -/
def smsEndpoint : String := "sms/"

/-- The loop of `strings.ReplaceAll` for a non-empty `old`: scan left to
right, replacing each occurrence and continuing after it. -/
def replaceLoop (old new : List Char) : Nat → List Char → List Char
  | 0, s => s
  | _ + 1, [] => []
  | fuel + 1, c :: cs =>
    if old.isPrefixOf (c :: cs) then new ++ replaceLoop old new fuel ((c :: cs).drop old.length)
    else c :: replaceLoop old new fuel cs

/-- Model of `strings.ReplaceAll`.  An empty `old` matches before every
character and at the end. -/
def ReplaceAll (s old new : String) : String :=
  if old = "" then String.mk (new.data ++ s.data.flatMap (fun c => c :: new.data))
  else String.mk (replaceLoop old.data new.data s.length s.data)

/-- The address built at main.go:460. -/
def requestURL (number : String) : String :=
  pageURL ++ smsEndpoint ++ ReplaceAll number "+" "" ++ "/"

/-- The loop of `ScrapeAvailableNumbers`, main.go:422-437, from the boxes
still to visit and the numbers collected so far.  `clock k` is the formatted
result of the call of `time.Now` for the record at position `k`. -/
def numberLoop (clock : Nat → String) : List Root → List Number → Except Failure (List Number)
  | [], numbers => .ok numbers
  | numberBox :: rest, numbers =>
    match numberBox.FindStrict ["div", "class", "row"] with
    | .error e => .error e
    | .ok numberElement =>
      if numberElement.Error = none then
        match numberElement.FindStrict ["h4"], numberElement.FindStrict ["h5"] with
        | .ok numberContainer, .ok countryContainer =>
          if numberContainer.Error = none ∧ countryContainer.Error = none then
            match numberContainer.Text, countryContainer.Text with
            | .ok n, .ok c =>
              numberLoop clock rest
                (numbers ++ [{ CreatedAt := clock numbers.length, Number := n, Country := c }])
            | .error e, _ => .error e
            | _, .error e => .error e
          else numberLoop clock rest numbers
        | .error e, _ => .error e
        | _, .error e => .error e
      else numberLoop clock rest numbers

/-- The part of `ScrapeAvailableNumbers` that works on the parsed page,
main.go:414-439 (`extractAvailableNumbers` in the specification). -/
def extractAvailableNumbers (clock : Nat → String) (document : Root) :
    Except Failure (List Number) :=
  match document.Find ["div", "class", "number-boxes"] with
  | .error e => .error e
  | .ok container =>
    match container.FindAllStrict ["div", "class", "number-boxes-item d-flex flex-column "] with
    | .error e => .error e
    | .ok numberBoxes => numberLoop clock numberBoxes []

/-- The loop of `ScrapeMessagesForNumber`, main.go:484-498. -/
def messageLoop : List Root → List Message → Except Failure (List Message)
  | [], messages => .ok messages
  | row :: rest, messages =>
    match row.FindAll ["td"] with
    | .error e => .error e
    | .ok cols =>
      if cols.length < 3 then messageLoop rest messages
      else
        match index cols 0, index cols 1, index cols 2 with
        | .ok c0, .ok c1, .ok c2 =>
          match c0.FullText, c1.FullText, c2.FullText with
          | .ok o, .ok b, .ok t =>
            messageLoop rest (messages ++ [{ Originator := o, Body := b, CreatedAt := t }])
          | .error e, _, _ => .error e
          | _, .error e, _ => .error e
          | _, _, .error e => .error e
        | .error e, _, _ => .error e
        | _, .error e, _ => .error e
        | _, _, .error e => .error e

/-- The part of `ScrapeMessagesForNumber` that works on the parsed page,
main.go:468-500 (`extractMessages` in the specification). -/
def extractMessages (document : Root) : Except Failure (List Message) :=
  match document.Find ["table"] with
  | .error e => .error e
  | .ok table =>
    if table.Error ≠ none then .error (.fatal "Failed to load messages\n")
    else
      match table.Find ["tbody"] with
      | .error e => .error e
      | .ok tbody =>
        if tbody.Error ≠ none then .error (.fatal "Failed to load messages\n")
        else
          match tbody.FindAll ["tr"] with
          | .error e => .error e
          | .ok tableRows => messageLoop tableRows []

/-- The network and the HTML parser, as the scrapers use them. -/
structure Web where
  /-- Model of `http.Get(url)` followed by `resp.Cookies()`: the names and
  values of the cookies, none on a transport error. -/
  Get : String → Option (List (String × String))
  /-- Model of `soup.Get(url)` under the cookies set with `soup.Cookie`: the
  body, or the text of the error. -/
  soupGet : List (String × String) → String → Except String String
  /-- Model of `soup.HTMLParse`. -/
  HTMLParse : String → Root

/-- Model of `soup.Cookie`: bind the name to the value in the cookies the
package sends. -/
def setCookie (jar : List (String × String)) (name value : String) : List (String × String) :=
  (name, value) :: jar.filter (fun c => c.1 ≠ name)

/-- The loop over the cookies of the response, main.go:451-456: the value of
the last cookie named `cookieName`, the empty string when there is none. -/
def cookieValueOf (cookies : List (String × String)) : String :=
  cookies.foldl (fun value cookie => if cookie.1 = cookieName then cookie.2 else value) ""

/-- Embedding of `ScrapeAvailableNumbers`, main.go:408-440.  `jar` holds the
cookies set with `soup.Cookie` so far. -/
def ScrapeAvailableNumbers (web : Web) (jar : List (String × String)) (clock : Nat → String) :
    Except Failure (List Number) :=
  match web.soupGet jar pageURL with
  | .error _ => .error (.fatal ("Failed to make HTTP request to " ++ pageURL ++ "\n"))
  | .ok response => extractAvailableNumbers clock (web.HTMLParse response)

/-- Embedding of `ScrapeMessagesForNumber`, main.go:443-501.  The cookie set
with `soup.Cookie` stays set after the call; the function returns only the
messages. -/
def ScrapeMessagesForNumber (web : Web) (jar : List (String × String)) (number : String) :
    Except Failure (List Message) :=
  match web.Get pageURL with
  | none => .error (.fatal "Failed to make GET request\n")
  | some cookies =>
    match web.soupGet (setCookie jar cookieName (cookieValueOf cookies)) (requestURL number) with
    | .error err => .error (.fatal ("error fetching data: " ++ err))
    | .ok response => extractMessages (web.HTMLParse response)

deriving instance DecidableEq for Except

/-! ## A concrete `encoding/json` for `Numbers`: `goJSON`
`goJSON` follows `encoding/json` on the documents the store meets: the
compact output of `json.Marshal` and, on the way in, arrays of objects whose
members are strings or `null`, with insignificant white space, escapes and
case-insensitive keys.  Member values of other JSON types are rejected; for
the three keys of `Number` that is what `json.Unmarshal` does too. -/

/-- The lower-case hexadecimal digit of `n < 16`. -/
def hexDigit (n : Nat) : Char :=
  if n < 10 then Char.ofNat (48 + n) else Char.ofNat (87 + n)

/-- How `json.Marshal` writes one character of a string, HTML escaping on;
control characters other than `\n`, `\r` and `\t` are written as `\u00XX`. -/
def escapeChar (c : Char) : List Char :=
  if c = '"' then ['\\', '"']
  else if c = '\\' then ['\\', '\\']
  else if c = '\n' then ['\\', 'n']
  else if c = '\r' then ['\\', 'r']
  else if c = '\t' then ['\\', 't']
  else if c.toNat < 0x20 ∨ c = '<' ∨ c = '>' ∨ c = '&' then
    ['\\', 'u', '0', '0', hexDigit (c.toNat / 16), hexDigit (c.toNat % 16)]
  else if c.toNat = 0x2028 then ['\\', 'u', '2', '0', '2', '8']
  else if c.toNat = 0x2029 then ['\\', 'u', '2', '0', '2', '9']
  else [c]

/-- A JSON string literal for `s`. -/
def encodeString (s : String) : List Char :=
  '"' :: (s.data.flatMap escapeChar ++ ['"'])

/-- One member of a JSON object: the key and the value as string literals
around a colon. -/
def encodeMember (key value : String) : List Char :=
  encodeString key ++ ':' :: encodeString value

/-- The JSON object of a `Number`, fields in declaration order under their
`json` tags. -/
def encodeNumber (n : Number) : List Char :=
  '\x7b' :: (encodeMember "country" n.Country ++ ',' ::
    (encodeMember "number" n.Number ++ ',' ::
      (encodeMember "created_at" n.CreatedAt ++ ['\x7d'])))

/-- Model of `json.Marshal` on a non-nil `Numbers`. -/
def jsonMarshal (numbers : Numbers) : String :=
  String.mk ('[' :: (List.intercalate [','] (numbers.map encodeNumber) ++ [']']))

/-- Drop leading JSON white space. -/
def skipWS : List Char → List Char
  | [] => []
  | c :: cs => if c = ' ' ∨ c = '\t' ∨ c = '\n' ∨ c = '\r' then skipWS cs else c :: cs

/-- The value of a hexadecimal digit. -/
def hexVal (c : Char) : Option Nat :=
  if '0' ≤ c ∧ c ≤ '9' then some (c.toNat - 48)
  else if 'a' ≤ c ∧ c ≤ 'f' then some (c.toNat - 87)
  else if 'A' ≤ c ∧ c ≤ 'F' then some (c.toNat - 55)
  else none

/-- The value of four hexadecimal digits. -/
def hex4 (a b c d : Char) : Option Nat :=
  match hexVal a, hexVal b, hexVal c, hexVal d with
  | some x, some y, some z, some w => some (((x * 16 + y) * 16 + z) * 16 + w)
  | _, _, _, _ => none

/-- The character of a `\u` escape that is not part of a surrogate pair: the
code point itself, U+FFFD for a lone surrogate. -/
def escapedRune (n : Nat) : Char :=
  if 0xD800 ≤ n ∧ n < 0xE000 then Char.ofNat 0xFFFD else Char.ofNat n

/-- The simple escapes of a JSON string: the character after the backslash
and the character it stands for. -/
def unescape (e : Char) : Option Char :=
  if e = '"' then some '"'
  else if e = '\\' then some '\\'
  else if e = '/' then some '/'
  else if e = 'b' then some '\x08'
  else if e = 'f' then some '\x0c'
  else if e = 'n' then some '\n'
  else if e = 'r' then some '\r'
  else if e = 't' then some '\t'
  else none

/-- Read four hexadecimal digits: their value and the input after them. -/
def readHex4 : List Char → Option (Nat × List Char)
  | a :: b :: c :: d :: rest => (hex4 a b c d).map (fun n => (n, rest))
  | _ => none

/-- The second half of a surrogate pair: `hi` is the value of a `\u` escape
just read and `rest` the input after it.  The result is the character of the
pair and the input after the second escape; none unless `hi` is a high
surrogate and `rest` starts with the `\u` escape of a low one. -/
def lowSurrogate (hi : Nat) (rest : List Char) : Option (Char × List Char) :=
  if 0xD800 ≤ hi ∧ hi < 0xDC00 then
    match rest with
    | b :: u :: rest1 =>
      if b = '\\' ∧ u = 'u' then
        match readHex4 rest1 with
        | some (lo, rest2) =>
          if 0xDC00 ≤ lo ∧ lo < 0xE000 then
            some (Char.ofNat (0x10000 + (hi - 0xD800) * 0x400 + (lo - 0xDC00)), rest2)
          else none
        | none => none
      else none
    | _ => none
  else none

/-- Decode one escape from just after its backslash: the character it stands
for and the input after the escape. -/
def decodeEscape : List Char → Option (Char × List Char)
  | [] => none
  | e :: rest =>
    if e = 'u' then
      match readHex4 rest with
      | none => none
      | some (hi, rest1) =>
        match lowSurrogate hi rest1 with
        | some pair => some pair
        | none => some (escapedRune hi, rest1)
    else (unescape e).map (fun x => (x, rest))

/-- Decode a string literal from just after its opening quote: the text and
the input after the closing quote.  One unit of fuel is spent per decoded
character; the length of the input is always enough. -/
def decodeString : Nat → List Char → Option (List Char × List Char)
  | 0, _ => none
  | _ + 1, [] => none
  | fuel + 1, c :: cs =>
    if c = '"' then some ([], cs)
    else if c = '\\' then
      match decodeEscape cs with
      | none => none
      | some (x, rest) => (decodeString fuel rest).map (fun r => (x :: r.1, r.2))
    else if c.toNat < 0x20 then none
    else (decodeString fuel cs).map (fun r => (c :: r.1, r.2))

/-- ASCII lower case, the folding under which `encoding/json` matches the
keys `country`, `number` and `created_at`. -/
def foldKey (key : List Char) : String :=
  String.mk (key.map (fun c => if 'A' ≤ c ∧ c ≤ 'Z' then Char.ofNat (c.toNat + 32) else c))

/-- Store a decoded member into the matching field; other keys are ignored. -/
def setField (n : Number) (key : List Char) (val : String) : Number :=
  if foldKey key = "country" then { n with Country := val }
  else if foldKey key = "number" then { n with Number := val }
  else if foldKey key = "created_at" then { n with CreatedAt := val }
  else n

/-- The input after the literal `null`, when the input starts with it. -/
def dropNull : List Char → Option (List Char)
  | a :: b :: c :: d :: cs => if a = 'n' ∧ b = 'u' ∧ c = 'l' ∧ d = 'l' then some cs else none
  | _ => none

/-- The input after the character `c`, when the input starts with it. -/
def expect (c : Char) : List Char → Option (List Char)
  | [] => none
  | x :: cs => if x = c then some cs else none

/-- A member value: a string literal, or `null`, which leaves the field as it
is.  The result is the update to apply and the remaining input. -/
def decodeMemberValue (key : List Char) (cs : List Char) :
    Option ((Number → Number) × List Char) :=
  match expect '"' cs with
  | some cs1 =>
    (decodeString cs1.length cs1).map
      (fun r => (fun n => setField n key (String.mk r.1), r.2))
  | none => (dropNull cs).map (fun rest => (id, rest))

/-- One member of an object from just before its key: the update it makes
and the input after its value. -/
def decodeMember (cs : List Char) : Option ((Number → Number) × List Char) :=
  match expect '"' (skipWS cs) with
  | none => none
  | some cs1 =>
    match decodeString cs1.length cs1 with
    | none => none
    | some (key, cs2) =>
      match expect ':' (skipWS cs2) with
      | none => none
      | some cs3 => decodeMemberValue key (skipWS cs3)

/-- The members of an object from just before a key, up to and including the
closing brace.  One unit of fuel is spent per member. -/
def decodeMembers : Nat → Number → List Char → Option (Number × List Char)
  | 0, _, _ => none
  | fuel + 1, n, cs =>
    match decodeMember cs with
    | none => none
    | some (update, cs1) =>
      match skipWS cs1 with
      | [] => none
      | c :: cs2 =>
        if c = ',' then decodeMembers fuel (update n) cs2
        else if c = '\x7d' then some (update n, cs2)
        else none

/-- One array element: an object, or `null` for the zero `Number`. -/
def decodeElement (cs : List Char) : Option (Number × List Char) :=
  match expect '\x7b' cs with
  | some cs1 =>
    match expect '\x7d' (skipWS cs1) with
    | some cs2 => some (⟨"", "", ""⟩, cs2)
    | none => decodeMembers cs1.length ⟨"", "", ""⟩ cs1
  | none => (dropNull cs).map (fun rest => (⟨"", "", ""⟩, rest))

/-- The elements of an array from just before an element, up to and
including the closing bracket.  One unit of fuel is spent per element. -/
def decodeElements : Nat → List Char → Option (Numbers × List Char)
  | 0, _ => none
  | fuel + 1, cs =>
    match decodeElement (skipWS cs) with
    | none => none
    | some (n, cs1) =>
      match skipWS cs1 with
      | [] => none
      | c :: cs2 =>
        if c = ',' then (decodeElements fuel cs2).map (fun r => (n :: r.1, r.2))
        else if c = ']' then some ([n], cs2)
        else none

/-- The top-level value: `null` for the empty registry, or an array. -/
def decodeValue (cs : List Char) : Option (Numbers × List Char) :=
  match expect '[' cs with
  | some cs1 =>
    match expect ']' (skipWS cs1) with
    | some cs2 => some ([], cs2)
    | none => decodeElements cs1.length cs1
  | none => (dropNull cs).map (fun rest => ([], rest))

/-- Model of `json.Unmarshal` into a `Numbers`: a JSON array of objects, or
`null`, and nothing but white space around it. -/
def jsonUnmarshal (data : String) : Option Numbers :=
  match decodeValue (skipWS data.data) with
  | none => none
  | some (numbers, rest) => if skipWS rest = [] then some numbers else none

/-- The concrete codec. -/
def goJSON : EncodingJSON := ⟨jsonMarshal, jsonUnmarshal⟩

/-! ## Documents as lists of nodes in document order -/

mutual
/-- A node followed by everything below it, in document order. -/
def Node.subtree : Node → List Node
  | .element tag attr children => .element tag attr children :: subtreeList children
  | .text d => [.text d]
  | .comment d => [.comment d]
/-- The subtrees of a chain of siblings, in document order. -/
def subtreeList : List Node → List Node
  | [] => []
  | c :: cs => c.subtree ++ subtreeList cs
end

/-- Everything below a node, in document order. -/
def Node.descendants (n : Node) : List Node := subtreeList n.children

/-- Whether a node is an element with the given tag. -/
def Node.isTag (name : String) : Node → Bool
  | .element tag _ _ => tag = name
  | _ => false

/-- The characters of a text node; nothing for other nodes. -/
def Node.textData : Node → List Char
  | .text d => d.data
  | _ => []

/-- The first element with the given tag below `n`. -/
def firstTag (name : String) (n : Node) : Option Node :=
  n.descendants.find? (Node.isTag name)

/-- All elements with the given tag below `n`, in document order. -/
def allTags (name : String) (n : Node) : List Node :=
  n.descendants.filter (Node.isTag name)

/-- The full inner text of a node: the text nodes below it, concatenated in
document order. -/
def innerText (n : Node) : String :=
  String.mk (n.descendants.flatMap Node.textData)

/-- How many times a search with `args` lists a node: `matchCount` on an
element, never for a text or a comment. -/
def Node.matchCount (strict : Bool) (args : List String) : Node → Nat
  | .element tag attr _ => FakeSMS.matchCount strict args tag attr
  | _ => 0

/-- Whether a search with `args` accepts a node. -/
def Node.matches (strict : Bool) (args : List String) (n : Node) : Bool :=
  decide (0 < n.matchCount strict args)

/-- The first node below `n` that a search with `args` accepts. -/
def firstMatch (strict : Bool) (args : List String) (n : Node) : Option Node :=
  n.descendants.find? (Node.matches strict args)

/-- All nodes below `n` that a search with `args` lists, in document order,
each as often as the search lists it. -/
def allMatches (strict : Bool) (args : List String) (n : Node) : List Node :=
  n.descendants.flatMap (fun m => List.replicate (m.matchCount strict args) m)

/-- The record `extractMessages` builds from a row, as the code finds its
cells: the cells are the `td` elements at any depth below the row, in
document order (those of a table nested in a cell included, `th` elements
never).  None for a row with fewer than three of them, otherwise the inner
texts of the first three as originator, body and time. -/
def rowMessage (row : Node) : Option Message :=
  match allTags "td" row with
  | c0 :: c1 :: c2 :: _ =>
    some { Originator := innerText c0, Body := innerText c1, CreatedAt := innerText c2 }
  | _ => none

/-- The cells of a row in the words of the specification: the cell elements
(`td` or `th`) that are children of the row itself. -/
def ownCells (row : Node) : List Node :=
  row.children.filter (fun n => n.isTag "td" || n.isTag "th")

/-- The record of a row in the words of the specification: none for a row
with fewer than three cells of its own, otherwise the inner texts of its
cells 0, 1 and 2. -/
def claimedRowMessage (row : Node) : Option Message :=
  match ownCells row with
  | c0 :: c1 :: c2 :: _ =>
    some { Originator := innerText c0, Body := innerText c1, CreatedAt := innerText c2 }
  | _ => none

/-- The result of message extraction in the words of the specification: one
record for each row below the body section with at least three cells of its
own, in row order. -/
def claimedMessages (tbody : Node) : List Message :=
  (allTags "tr" tbody).filterMap claimedRowMessage

/-- The listing container of `extractAvailableNumbers`: the first `div` below
the document root with `number-boxes` among the values of a `class`
attribute. -/
def listingContainer (doc : Node) : Option Node :=
  firstMatch false ["div", "class", "number-boxes"] doc

/-- The items of a container: the `div` elements below it whose `class`
attribute is exactly the item class, in document order. -/
def listingItems (container : Node) : List Node :=
  allMatches true ["div", "class", "number-boxes-item d-flex flex-column "] container

/-- The number and country texts of an item: those of the first `h4` and the
first `h5` below the first `div` of class `row` below the item, or none when
the item lacks the row, the `h4` or the `h5`. -/
def itemFields (item : Node) : Option (String × String) :=
  match firstMatch true ["div", "class", "row"] item with
  | none => none
  | some row =>
    match firstTag "h4" row, firstTag "h5" row with
    | some h4, some h5 => some (textOf h4.children, textOf h5.children)
    | _, _ => none

/-- The records built from the (number, country) texts, stamped with the
successive readings of the clock from `start` on. -/
def stamp (clock : Nat → String) : Nat → List (String × String) → List Number
  | _, [] => []
  | start, (n, c) :: rest =>
    { CreatedAt := clock start, Number := n, Country := c } :: stamp clock (start + 1) rest

/-- The number with only a leading `+` stripped, as the specification
describes the address (`strings.TrimPrefix(number, "+")`). -/
def stripLeadingPlus (number : String) : String :=
  match number.data with
  | '+' :: rest => String.mk rest
  | _ => number

/-! ## Example states and documents -/

/-- An environment with only `HOME` set. -/
def homeEnv : Env := fun key => if key = "HOME" then some "/home/u" else none

/-- An environment with `FAKE_SMS_DB_DIR` set. -/
def dirEnv : Env := fun key => if key = "FAKE_SMS_DB_DIR" then some "/data" else none

/-- The empty file system. -/
def emptyFS : FS := fun _ => none

/-- The record of the end-to-end example of the specification. -/
def usRecord : Number := ⟨"US", "+15551234567", "2024-01-01 00:00:00 Monday"⟩

/-- A second record. -/
def ukRecord : Number := ⟨"UK", "+447700900123", "2024-01-02 09:30:00 Tuesday"⟩

/-- The path of the registry file under `homeEnv`. -/
def homeDB : String := "/home/u/.fake-sms/db.json"

/-- A file system holding a registry of two records under `homeEnv`. -/
def registryFS : FS :=
  (emptyFS.set "/home/u/.fake-sms" .dir).set homeDB (.file (jsonMarshal [usRecord, ukRecord]))

/-- A file system holding a registry of one record under `homeEnv`. -/
def singleFS : FS :=
  (emptyFS.set "/home/u/.fake-sms" .dir).set homeDB (.file (jsonMarshal [usRecord]))

/-- The file system `getDBPath` leaves when it starts from the empty one
under `homeEnv`. -/
def freshFS : FS :=
  (emptyFS.set "/home/u/.fake-sms" .dir).set homeDB (.file emptyArray)

/-- The path the doc comment of `getDBPath` promises (main.go:48-54):
`<db_dir>/.fake-sms/db.json`, with `db_dir` taken from `FAKE_SMS_DB_DIR` and,
failing that, from `HOME`. -/
def documentedDBPath (env : Env) : String :=
  Join [(LookupEnv env "FAKE_SMS_DB_DIR").getD (Getenv env "HOME"), ".fake-sms", "db.json"]

/-- A clock that always reads the same time. -/
def fixedClock : Nat → String := fun _ => "2024-01-01 00:00:00 Monday"

/-- A listing item with the given children of its row. -/
def listingItem (row : List Node) : Node :=
  .element "div" [("class", "number-boxes-item d-flex flex-column ")]
    [.element "div" [("class", "row")] row]

/-- A listing page with the given items in its container. -/
def listingPage (items : List Node) : Node :=
  .element "html" [] [.element "head" [] [],
    .element "body" [] [.element "div" [("class", "container number-boxes")] items]]

/-- A listing page with two valid items around a malformed one (no `h5`). -/
def mixedPage : Node :=
  listingPage [
    listingItem [.element "h4" [] [.text "+15551234567"], .element "h5" [] [.text "United States"]],
    listingItem [.element "h4" [] [.text "+33123456789"]],
    listingItem [.text "\n", .element "h4" [] [.text "+447700900123"],
      .element "h5" [] [.element "img" [("src", "gb.png")] [], .text "United Kingdom"]]]

/-- A listing page whose only item is valid but has an empty `h4`. -/
def emptyNumberPage : Node :=
  listingPage [listingItem [.element "h4" [] [], .element "h5" [] [.text "United States"]]]

/-- A page without the listing container. -/
def barePage : Node :=
  .element "html" [] [.element "head" [] [], .element "body" [] [.element "p" [] [.text "Moved"]]]

/-- One table cell. -/
def cell (children : List Node) : Node := .element "td" [] children

/-- The body section of the example message table: two full rows around a
row of two cells. -/
def messageBody : Node :=
  .element "tbody" [] [
    .element "tr" [] [cell [.text "Bank"], cell [.text "Your code is ", .element "b" [] [.text "1234"]],
      cell [.text "1 minute ago"]],
    .element "tr" [] [cell [.text "advert"], cell []],
    .element "tr" [] [cell [.text "+15550100"], cell [.text "hello"], cell [.text "2 hours ago"],
      cell [.text "extra"]]]

/-- The example message table. -/
def messageTable : Node :=
  .element "table" [("class", "table")] [.element "thead" [] [], messageBody]

/-- A message page. -/
def messagePage : Node :=
  .element "html" [] [.element "body" [] [messageTable]]

/-- A message page whose table has no body section. -/
def headOnlyPage : Node :=
  .element "html" [] [.element "body" [] [.element "table" [] [.element "thead" [] []]]]

/-- A row with two cells of its own, the second holding a nested table with
one row of three cells. -/
def nestedRow : Node :=
  .element "tr" [] [cell [.text "A"],
    cell [.text "B", .element "table" [] [.element "tbody" [] [
      .element "tr" [] [cell [.text "n0"], cell [.text "n1"], cell [.text "n2"]]]]]]

/-- The body section holding `nestedRow`. -/
def nestedBody : Node := .element "tbody" [] [nestedRow]

/-- A message page whose only row of the outer table is `nestedRow`. -/
def nestedPage : Node :=
  .element "html" [] [.element "body" [] [.element "table" [] [nestedBody]]]

/-- A body section whose only row has two header cells and two data cells. -/
def headerBody : Node :=
  .element "tbody" [] [.element "tr" [] [
    .element "th" [] [.text "From"], .element "th" [] [.text "Text"],
    cell [.text "x"], cell [.text "y"]]]

/-- A message page whose only row is the one of `headerBody`. -/
def headerPage : Node :=
  .element "html" [] [.element "body" [] [.element "table" [] [headerBody]]]

/-! # Theorems -/

/-! ## Facts about the file-system model -/

theorem IsNotExist_Stat (fs : FS) (name : String) :
    IsNotExist (Stat fs name) = true ↔ fs.get name = none := by
  unfold Stat IsNotExist
  cases h : fs.get name with
  | none => simp
  | some e => cases e <;> simp

theorem get_set_self (fs : FS) (name : String) (e : Entry) (h : name ≠ "") :
    (fs.set name e).get name = some e := by
  simp [FS.get, FS.set, h]

theorem get_set_isSome (fs : FS) (name q : String) (e : Entry)
    (h : fs.get q ≠ none) : (fs.set name e).get q ≠ none := by
  unfold FS.get FS.set at *
  by_cases hq : q = ""
  · simp [hq] at h
  · by_cases hqn : q = name <;> simp_all

theorem MkdirAll_ok (fs fs1 : FS) (path : String) (h : MkdirAll fs path = (none, fs1)) :
    path ≠ "" ∧ (fs1 = fs ∨ (fs path = none ∧ fs1 = fs.set path .dir)) ∧ fs1.get path ≠ none := by
  unfold MkdirAll at h
  by_cases hp : path = ""
  · simp [hp] at h
  · simp only [hp, if_false] at h
    cases hfs : fs path with
    | none =>
      simp only [hfs, Prod.mk.injEq, true_and] at h
      subst h
      exact ⟨hp, Or.inr ⟨rfl, rfl⟩, by simp [get_set_self, hp]⟩
    | some e =>
      cases e <;> simp [hfs] at h
      subst h
      exact ⟨hp, Or.inl rfl, by simp [FS.get, hp, hfs]⟩

theorem WriteFile_ok (fs fs1 : FS) (name data : String)
    (h : WriteFile fs name data = (none, fs1)) :
    name ≠ "" ∧ fs1 = fs.set name (.file data) := by
  unfold WriteFile at h
  by_cases hp : name = ""
  · simp [hp] at h
  · simp only [hp, if_false] at h
    cases hfs : fs name with
    | none => simp [hfs] at h; exact ⟨hp, h.symm⟩
    | some e => cases e <;> simp [hfs] at h; exact ⟨hp, h.symm⟩

theorem WriteFile_over_file (fs : FS) (name data old : String)
    (h : ReadFile fs name = .ok old) :
    WriteFile fs name data = (none, fs.set name (.file data)) := by
  unfold ReadFile FS.get at h
  unfold WriteFile
  by_cases hp : name = ""
  · simp [hp] at h
  · simp only [hp, if_false] at h ⊢
    cases hfs : fs name with
    | none => simp
    | some e => cases e <;> simp [hfs] at h ⊢

/-- What a successful `getDBPath` leaves behind: the path is the joined
one, the directory and the file both exist, every entry that existed is
untouched, and a path that named nothing holds the empty-array payload (or is
the directory itself). -/
theorem getDBPath_ok (env : Env) (fs fs1 : FS) (p : String)
    (h : getDBPath env fs = .ok (p, fs1)) :
    p = Join [dbDir env, "db.json"] ∧ fs1.get (dbDir env) ≠ none ∧ fs1.get p ≠ none ∧
    (∀ q, fs.get q ≠ none → fs1 q = fs q) ∧
    (fs.get p = none → fs1 p = some (.file emptyArray) ∨ fs1 p = some .dir) := by
  unfold getDBPath at h
  simp only at h
  -- the state after the directory step
  have key : ∀ fsd : FS, fsd.get (dbDir env) ≠ none →
      (∀ q, fs.get q ≠ none → fsd q = fs q) →
      (∀ q, q ≠ dbDir env → fsd q = fs q) →
      (fs.get (dbDir env) = none → fsd (dbDir env) = some .dir) →
      (if IsNotExist (Stat fsd (Join [dbDir env, "db.json"])) = true then
        match WriteFile fsd (Join [dbDir env, "db.json"]) emptyArray with
        | (some _, _) => Except.error (Failure.fatal
            ("Faild to create DB file at " ++ Join [dbDir env, "db.json"] ++ "\n"))
        | (none, fs2) => Except.ok (Join [dbDir env, "db.json"], fs2)
      else Except.ok (Join [dbDir env, "db.json"], fsd)) = Except.ok (p, fs1) →
      p = Join [dbDir env, "db.json"] ∧ fs1.get (dbDir env) ≠ none ∧ fs1.get p ≠ none ∧
      (∀ q, fs.get q ≠ none → fs1 q = fs q) ∧
      (fs.get p = none → fs1 p = some (.file emptyArray) ∨ fs1 p = some .dir) := by
    intro fsd hex hfsd hoff hdir h
    by_cases hf : IsNotExist (Stat fsd (Join [dbDir env, "db.json"])) = true
    · simp only [hf, if_true] at h
      rcases hw : WriteFile fsd (Join [dbDir env, "db.json"]) emptyArray with ⟨err, fsw⟩
      rw [hw] at h
      cases err with
      | some e => simp at h
      | none =>
        simp only [Except.ok.injEq, Prod.mk.injEq] at h
        obtain ⟨hp, hfs1⟩ := h
        subst hp hfs1
        obtain ⟨hpne, hset⟩ := WriteFile_ok _ _ _ _ hw
        subst hset
        have h2 : fsd.get (Join [dbDir env, "db.json"]) = none := (IsNotExist_Stat _ _).1 hf
        refine ⟨rfl, get_set_isSome _ _ _ _ hex, by simp [get_set_self, hpne], ?_, ?_⟩
        · intro q hq
          have hne : q ≠ Join [dbDir env, "db.json"] := by
            intro hc
            subst hc
            have h1 := hfsd _ hq
            apply hq
            simp only [FS.get, hpne, if_false] at h2 ⊢
            rw [← h1]; exact h2
          simp [FS.set, hne, hfsd q hq]
        · intro _; left; simp [FS.set]
    · simp only [hf] at h
      simp only [Bool.false_eq_true, if_false, Except.ok.injEq, Prod.mk.injEq] at h
      obtain ⟨hp, hfs1⟩ := h
      subst hp hfs1
      have hf2 : fsd.get (Join [dbDir env, "db.json"]) ≠ none := by
        intro hc; exact hf ((IsNotExist_Stat _ _).2 hc)
      refine ⟨rfl, hex, hf2, hfsd, ?_⟩
      intro hq
      right
      by_cases hne : Join [dbDir env, "db.json"] = dbDir env
      · rw [hne]; exact hdir (by rw [hne] at hq; exact hq)
      · exfalso
        apply hf2
        have := hoff _ hne
        unfold FS.get at hq ⊢
        by_cases he : Join [dbDir env, "db.json"] = ""
        · simp [he]
        · simp only [he, if_false] at hq ⊢
          rw [this]; exact hq
  by_cases hd : IsNotExist (Stat fs (dbDir env)) = true
  · simp only [hd, if_true] at h
    rcases hm : MkdirAll fs (dbDir env) with ⟨err, fsd⟩
    rw [hm] at h
    cases err with
    | some e => simp at h
    | none =>
      simp only at h
      obtain ⟨hne, hcase, hex⟩ := MkdirAll_ok fs fsd _ hm
      have hdnone : fs.get (dbDir env) = none := (IsNotExist_Stat _ _).1 hd
      refine key fsd hex ?_ ?_ ?_ h
      · intro q hq
        rcases hcase with h1 | ⟨_, h1⟩
        · rw [h1]
        · rw [h1]; unfold FS.set
          have : q ≠ dbDir env := by intro hc; rw [hc] at hq; exact hq hdnone
          simp [this]
      · intro q hq
        rcases hcase with h1 | ⟨_, h1⟩
        · rw [h1]
        · rw [h1]; simp [FS.set, hq]
      · intro _
        rcases hcase with h1 | ⟨_, h1⟩
        · rw [h1]
          have := hex
          rw [h1] at this
          exact absurd hdnone this
        · rw [h1]; simp [FS.set]
  · simp only [hd] at h
    simp only [Bool.false_eq_true, if_false] at h
    have hex : fs.get (dbDir env) ≠ none := by
      intro hc; exact hd ((IsNotExist_Stat _ _).2 hc)
    exact key fs hex (fun _ _ => rfl) (fun _ _ => rfl) (fun hc => absurd hc hex) h

/-- A state in which the directory and the file both exist is returned
unchanged. -/
theorem getDBPath_stable (env : Env) (fs : FS)
    (hd : fs.get (dbDir env) ≠ none) (hf : fs.get (Join [dbDir env, "db.json"]) ≠ none) :
    getDBPath env fs = .ok (Join [dbDir env, "db.json"], fs) := by
  have h1 : IsNotExist (Stat fs (dbDir env)) = false := by
    cases h : IsNotExist (Stat fs (dbDir env)) with
    | false => rfl
    | true => exact absurd ((IsNotExist_Stat _ _).1 h) hd
  have h2 : IsNotExist (Stat fs (Join [dbDir env, "db.json"])) = false := by
    cases h : IsNotExist (Stat fs (Join [dbDir env, "db.json"])) with
    | false => rfl
    | true => exact absurd ((IsNotExist_Stat _ _).1 h) hf
  unfold getDBPath
  simp [h1, h2]

/-! ## The concrete codec reads back what it writes -/

theorem hex4_hexDigit : ∀ n, n < 128 →
    hex4 '0' '0' (hexDigit (n / 16)) (hexDigit (n % 16)) = some n := by
  decide

theorem escapedRune_small (c : Char) (h : c.toNat < 0xD800) : escapedRune c.toNat = c := by
  have : ¬ (0xD800 ≤ c.toNat ∧ c.toNat < 0xE000) := by omega
  simp [escapedRune, this]

theorem lowSurrogate_small (hi : Nat) (rest : List Char) (h : hi < 0xD800) :
    lowSurrogate hi rest = none := by
  have : ¬ (0xD800 ≤ hi ∧ hi < 0xDC00) := by omega
  simp [lowSurrogate, this]

theorem decodeString_step (fuel : Nat) (c : Char) (cs : List Char) :
    decodeString (fuel + 1) (c :: cs) =
      if c = '"' then some ([], cs)
      else if c = '\\' then
        match decodeEscape cs with
        | none => none
        | some (x, rest) => (decodeString fuel rest).map (fun r => (x :: r.1, r.2))
      else if c.toNat < 0x20 then none
      else (decodeString fuel cs).map (fun r => (c :: r.1, r.2)) := by
  rw [decodeString]

theorem decodeString_simple (fuel : Nat) (e x : Char) (rest : List Char) (he : e ≠ 'u')
    (hx : unescape e = some x) :
    decodeString (fuel + 1) ('\\' :: e :: rest)
      = (decodeString fuel rest).map (fun r => (x :: r.1, r.2)) := by
  rw [decodeString_step]
  have h1 : ¬ ('\\' = '"') := by decide
  simp [h1, decodeEscape, he, hx]

theorem decodeString_unicode (fuel : Nat) (a b c d : Char) (rest : List Char) (x : Char)
    (h : hex4 a b c d = some x.toNat) (hs : x.toNat < 0xD800) :
    decodeString (fuel + 1) ('\\' :: 'u' :: a :: b :: c :: d :: rest)
      = (decodeString fuel rest).map (fun r => (x :: r.1, r.2)) := by
  rw [decodeString_step]
  have h1 : ¬ ('\\' = '"') := by decide
  simp [h1, decodeEscape, readHex4, h, lowSurrogate_small _ _ hs, escapedRune_small _ hs]

/-- Decoding what `json.Marshal` wrote for one character gives the
character back. -/
theorem decodeString_escapeChar (fuel : Nat) (c : Char) (rest : List Char) :
    decodeString (fuel + 1) (escapeChar c ++ rest)
      = (decodeString fuel rest).map (fun r => (c :: r.1, r.2)) := by
  unfold escapeChar
  by_cases h1 : c = '"'
  · subst h1; exact decodeString_simple fuel '"' '"' rest (by decide) (by decide)
  by_cases h2 : c = '\\'
  · subst h2; exact decodeString_simple fuel '\\' '\\' rest (by decide) (by decide)
  by_cases h3 : c = '\n'
  · subst h3; exact decodeString_simple fuel 'n' '\n' rest (by decide) (by decide)
  by_cases h4 : c = '\r'
  · subst h4; exact decodeString_simple fuel 'r' '\r' rest (by decide) (by decide)
  by_cases h5 : c = '\t'
  · subst h5; exact decodeString_simple fuel 't' '\t' rest (by decide) (by decide)
  simp only [h1, h2, h3, h4, h5, if_false]
  by_cases h6 : c.toNat < 0x20 ∨ c = '<' ∨ c = '>' ∨ c = '&'
  · simp only [h6, if_true]
    have hsmall : c.toNat < 128 := by
      rcases h6 with h | h | h | h
      · omega
      · subst h; decide
      · subst h; decide
      · subst h; decide
    exact decodeString_unicode fuel _ _ _ _ rest c (hex4_hexDigit _ hsmall) (by omega)
  simp only [h6, if_false]
  by_cases h7 : c.toNat = 0x2028
  · simp only [h7, if_true]
    exact decodeString_unicode fuel _ _ _ _ rest c (by rw [h7]; decide) (by omega)
  by_cases h8 : c.toNat = 0x2029
  · simp only [h7, h8, if_true, if_false]
    have : ¬ (0x2029 = 0x2028) := by decide
    simp only [this, if_false]
    exact decodeString_unicode fuel _ _ _ _ rest c (by rw [h8]; decide) (by omega)
  simp only [h7, h8, if_false]
  rw [List.singleton_append, decodeString_step]
  have h9 : ¬ c.toNat < 0x20 := fun h => h6 (Or.inl h)
  simp only [h1, h2, h9, if_false]

/-- Decoding a string literal written by `json.Marshal`, from after its
opening quote, gives the text back and stops after the closing quote. -/
theorem decodeString_encode (s rest : List Char) (fuel : Nat) (h : s.length < fuel) :
    decodeString fuel (s.flatMap escapeChar ++ '"' :: rest) = some (s, rest) := by
  induction s generalizing fuel with
  | nil =>
    cases fuel with
    | zero => simp at h
    | succ fuel => simp [decodeString_step]
  | cons c cs ih =>
    cases fuel with
    | zero => simp at h
    | succ fuel =>
      have hlen : cs.length < fuel := by simpa using h
      rw [List.flatMap_cons, List.append_assoc, decodeString_escapeChar, ih fuel hlen]
      rfl

theorem escapeChar_length (c : Char) : 1 ≤ (escapeChar c).length := by
  unfold escapeChar
  repeat' split
  all_goals simp

theorem escape_length (s : List Char) : s.length ≤ (s.flatMap escapeChar).length := by
  induction s with
  | nil => simp
  | cons c cs ih =>
    have := escapeChar_length c
    simp only [List.flatMap_cons, List.length_cons, List.length_append]
    omega

/-- A string literal written by `json.Marshal` is read back, with the input
length as fuel. -/
theorem decodeString_literal (s rest : List Char) :
    decodeString (s.flatMap escapeChar ++ '"' :: rest).length
      (s.flatMap escapeChar ++ '"' :: rest) = some (s, rest) := by
  apply decodeString_encode
  have := escape_length s
  simp only [List.length_append, List.length_cons]
  omega

theorem skipWS_nonspace (c : Char) (cs : List Char)
    (h : ¬ (c = ' ' ∨ c = '\t' ∨ c = '\n' ∨ c = '\r')) : skipWS (c :: cs) = c :: cs := by
  simp only [skipWS, h, if_false]

theorem expect_self (c : Char) (cs : List Char) : expect c (c :: cs) = some cs := by
  simp only [expect, if_true]

theorem expect_other (c x : Char) (cs : List Char) (h : x ≠ c) : expect c (x :: cs) = none := by
  simp only [expect, h, if_false]

theorem decodeMember_encode (key value : String) (rest : List Char) :
    decodeMember (encodeMember key value ++ rest)
      = some (fun n => setField n key.data value, rest) := by
  have hshape : encodeMember key value ++ rest
      = '"' :: (key.data.flatMap escapeChar ++ '"' ::
          (':' :: '"' :: (value.data.flatMap escapeChar ++ '"' :: rest))) := by
    simp [encodeMember, encodeString]
  rw [hshape]
  simp only [decodeMember, decodeMemberValue, skipWS_nonspace '"' _ (by decide),
    skipWS_nonspace ':' _ (by decide), expect_self, decodeString_literal, Option.map_some']

theorem setField_country (n : Number) (v : String) :
    setField n "country".data v = { n with Country := v } := by
  have : foldKey "country".data = "country" := by decide
  simp [setField, this]

theorem setField_number (n : Number) (v : String) :
    setField n "number".data v = { n with Number := v } := by
  have h1 : foldKey "number".data = "number" := by decide
  have h2 : ¬ ("number" = "country") := by decide
  simp [setField, h1, h2]

theorem setField_created_at (n : Number) (v : String) :
    setField n "created_at".data v = { n with CreatedAt := v } := by
  have h1 : foldKey "created_at".data = "created_at" := by decide
  have h2 : ¬ ("created_at" = "country") := by decide
  have h3 : ¬ ("created_at" = "number") := by decide
  simp [setField, h1, h2, h3]

theorem encodeMember_head (key value : String) (rest : List Char) :
    ∃ tail, encodeMember key value ++ rest = '"' :: tail :=
  ⟨(key.data.flatMap escapeChar ++ ['"']) ++ ':' :: encodeString value ++ rest, rfl⟩

theorem decodeMembers_comma (fuel : Nat) (n : Number) (key value : String) (rest : List Char) :
    decodeMembers (fuel + 1) n (encodeMember key value ++ ',' :: rest)
      = decodeMembers fuel (setField n key.data value) rest := by
  rw [decodeMembers]
  simp only [decodeMember_encode, skipWS_nonspace ',' _ (by decide), if_true]

theorem decodeMembers_close (fuel : Nat) (n : Number) (key value : String) (rest : List Char) :
    decodeMembers (fuel + 1) n (encodeMember key value ++ '\x7d' :: rest)
      = some (setField n key.data value, rest) := by
  rw [decodeMembers]
  have h : ¬ ('\x7d' = ',') := by decide
  simp only [decodeMember_encode, skipWS_nonspace '\x7d' _ (by decide), h, if_true, if_false]

/-- An object written by `json.Marshal` is read back as the record. -/
theorem decodeElement_encode (n : Number) (rest : List Char) :
    decodeElement (encodeNumber n ++ rest) = some (n, rest) := by
  have hshape : encodeNumber n ++ rest
      = '\x7b' :: (encodeMember "country" n.Country ++ ',' ::
          (encodeMember "number" n.Number ++ ',' ::
            (encodeMember "created_at" n.CreatedAt ++ '\x7d' :: rest))) := by
    simp [encodeNumber]
  rw [hshape]
  generalize hcs : encodeMember "country" n.Country ++ ',' ::
      (encodeMember "number" n.Number ++ ',' ::
        (encodeMember "created_at" n.CreatedAt ++ '\x7d' :: rest)) = cs1
  have hopen : expect '\x7d' (skipWS cs1) = none := by
    obtain ⟨tail, htail⟩ := encodeMember_head "country" n.Country
      (',' :: (encodeMember "number" n.Number ++ ',' ::
        (encodeMember "created_at" n.CreatedAt ++ '\x7d' :: rest)))
    rw [← hcs, htail, skipWS_nonspace '"' _ (by decide)]
    exact expect_other _ _ _ (by decide)
  obtain ⟨fuel, hfuel⟩ : ∃ fuel, cs1.length = fuel + 3 := by
    refine ⟨cs1.length - 3, ?_⟩
    rw [← hcs]
    simp only [List.length_append, List.length_cons]
    omega
  unfold decodeElement
  simp only [expect_self, hopen, hfuel]
  rw [← hcs, decodeMembers_comma, decodeMembers_comma, decodeMembers_close,
    setField_country, setField_number, setField_created_at]

theorem intercalate_length (xs : Numbers) :
    xs.length ≤ (List.intercalate [','] (xs.map encodeNumber)).length + 1 := by
  induction xs with
  | nil => simp
  | cons x rest ih =>
    cases rest with
    | nil => simp [List.intercalate]
    | cons y rest =>
      have hshape : List.intercalate [','] ((x :: y :: rest).map encodeNumber)
          = encodeNumber x ++ ',' :: List.intercalate [','] ((y :: rest).map encodeNumber) := by
        simp [List.intercalate, List.intersperse]
      rw [hshape]
      simp only [List.length_append, List.length_cons] at ih ⊢
      omega

/-- A non-empty array body written by `json.Marshal` is read back as the
records. -/
theorem decodeElements_encode (x : Number) (xs : Numbers) (rest : List Char) (fuel : Nat)
    (h : xs.length < fuel) :
    decodeElements fuel (List.intercalate [','] ((x :: xs).map encodeNumber) ++ ']' :: rest)
      = some (x :: xs, rest) := by
  induction xs generalizing x fuel with
  | nil =>
    cases fuel with
    | zero => simp at h
    | succ fuel =>
      have hshape : List.intercalate [','] ([x].map encodeNumber) ++ ']' :: rest
          = encodeNumber x ++ ']' :: rest := by
        simp [List.intercalate]
      have hx : skipWS (encodeNumber x ++ ']' :: rest) = encodeNumber x ++ ']' :: rest := by
        simp only [encodeNumber, List.cons_append]
        exact skipWS_nonspace _ _ (by decide)
      have h1 : ¬ (']' = ',') := by decide
      rw [hshape, decodeElements]
      simp only [hx, decodeElement_encode, skipWS_nonspace ']' _ (by decide), h1, if_true,
        if_false]
  | cons y rest' ih =>
    cases fuel with
    | zero => simp at h
    | succ fuel =>
      have hlen : rest'.length < fuel := by simpa using h
      have hshape : List.intercalate [','] ((x :: y :: rest').map encodeNumber) ++ ']' :: rest
          = encodeNumber x ++ ',' ::
            (List.intercalate [','] ((y :: rest').map encodeNumber) ++ ']' :: rest) := by
        simp [List.intercalate, List.intersperse]
      have hx : ∀ tail, skipWS (encodeNumber x ++ tail) = encodeNumber x ++ tail := by
        intro tail
        simp only [encodeNumber, List.cons_append]
        exact skipWS_nonspace _ _ (by decide)
      rw [hshape, decodeElements]
      simp only [hx, decodeElement_encode, skipWS_nonspace ',' _ (by decide), if_true,
        ih y fuel hlen, Option.map_some']

/-- The concrete codec reads back every registry it writes. -/
theorem goJSON_round_trip (numbers : Numbers) :
    goJSON.Unmarshal (goJSON.Marshal numbers) = some numbers := by
  show jsonUnmarshal (jsonMarshal numbers) = some numbers
  unfold jsonUnmarshal jsonMarshal
  simp only [skipWS_nonspace '[' _ (by decide)]
  cases numbers with
  | nil =>
    simp [decodeValue, expect_self, List.intercalate, skipWS, expect]
  | cons x xs =>
    have hclose : expect ']' (skipWS (List.intercalate [','] ((x :: xs).map encodeNumber) ++ [']']))
        = none := by
      cases xs with
      | nil =>
        simp only [List.map, List.intercalate, List.intersperse, List.flatten, List.append_nil,
          encodeNumber, List.cons_append]
        rw [skipWS_nonspace _ _ (by decide)]
        exact expect_other _ _ _ (by decide)
      | cons y ys =>
        have hshape : List.intercalate [','] ((x :: y :: ys).map encodeNumber)
            = encodeNumber x ++ ',' :: List.intercalate [','] ((y :: ys).map encodeNumber) := by
          simp [List.intercalate, List.intersperse]
        rw [hshape]
        simp only [encodeNumber, List.cons_append]
        rw [skipWS_nonspace _ _ (by decide)]
        exact expect_other _ _ _ (by decide)
    have hfuel : xs.length
        < (List.intercalate [','] ((x :: xs).map encodeNumber) ++ [']']).length := by
      have := intercalate_length (x :: xs)
      simp only [List.length_append, List.length_cons, List.length_nil] at this ⊢
      omega
    simp only [decodeValue, expect_self, hclose]
    rw [decodeElements_encode x xs [] _ hfuel]
    simp [skipWS]

/-! ## The registry store: theorems -/

theorem ReadFile_ne_empty (fs : FS) (name data : String) (h : ReadFile fs name = .ok data) :
    name ≠ "" ∧ fs name = some (.file data) := by
  unfold ReadFile FS.get at h
  by_cases hp : name = ""
  · simp [hp] at h
  · simp only [hp, if_false] at h
    cases hfs : fs name with
    | none => simp [hfs] at h
    | some e => cases e <;> simp [hfs] at h; exact ⟨hp, by rw [h]⟩

theorem ReadFile_set (fs : FS) (name data : String) (h : name ≠ "") :
    ReadFile (fs.set name (.file data)) name = .ok data := by
  simp [ReadFile, get_set_self, h]

/-- The load prefix on a state whose registry file holds `data`. -/
theorem loadDB_ok (J : EncodingJSON) (env : Env) (fs fs1 : FS) (dbPath data : String)
    (numbers : Numbers)
    (hpath : getDBPath env fs = .ok (dbPath, fs1))
    (hread : ReadFile fs1 dbPath = .ok data)
    (hdec : J.Unmarshal data = some numbers) :
    loadDB J env fs = .ok (dbPath, fs1, numbers) := by
  simp [loadDB, hpath, hread, hdec]

/-- Saving over the registry file replaces its content and nothing else. -/
theorem saveDB_ok (J : EncodingJSON) (fs : FS) (dbPath data : String) (numbers : Numbers)
    (hread : ReadFile fs dbPath = .ok data) :
    saveDB J dbPath fs numbers = .ok (fs.set dbPath (.file (J.Marshal numbers))) := by
  simp [saveDB, WriteFile_over_file fs dbPath (J.Marshal numbers) data hread]

/-- After a save, `getDBPath` finds the directory and the file in place. -/
theorem getDBPath_after_save (env : Env) (fs fs1 : FS) (dbPath new : String)
    (hpath : getDBPath env fs = .ok (dbPath, fs1)) :
    getDBPath env (fs1.set dbPath (.file new)) = .ok (dbPath, fs1.set dbPath (.file new)) := by
  obtain ⟨hp, hd, hf, _, _⟩ := getDBPath_ok env fs fs1 dbPath hpath
  have h := getDBPath_stable env (fs1.set dbPath (.file new))
    (get_set_isSome _ _ _ _ hd) (by rw [← hp]; exact get_set_isSome _ _ _ _ hf)
  rw [← hp] at h
  exact h

theorem sliceTo_ok {α : Type} (xs : List α) (i : Int) (h0 : 0 ≤ i) (h1 : i ≤ xs.length) :
    sliceTo xs i = .ok (xs.take i.toNat) := by
  have : ¬ (i < 0 ∨ (xs.length : Int) < i) := by omega
  simp [sliceTo, this]

theorem sliceFrom_ok {α : Type} (xs : List α) (i : Int) (h0 : 0 ≤ i) (h1 : i ≤ xs.length) :
    sliceFrom xs i = .ok (xs.drop i.toNat) := by
  have : ¬ (i < 0 ∨ (xs.length : Int) < i) := by omega
  simp [sliceFrom, this]

/-- Deleting at a position inside the registry: the registry file is
overwritten with the serialisation of the sequence without that position. -/
theorem deleteFromDB_ok (J : EncodingJSON) (env : Env) (fs fs1 : FS)
    (dbPath data : String) (numbers : Numbers) (idx : Int)
    (hpath : getDBPath env fs = .ok (dbPath, fs1))
    (hread : ReadFile fs1 dbPath = .ok data)
    (hdec : J.Unmarshal data = some numbers)
    (h0 : 0 ≤ idx) (hlt : idx < numbers.length) :
    deleteFromDB J env idx fs
      = .ok (fs1.set dbPath (.file (J.Marshal (numbers.eraseIdx idx.toNat)))) := by
  have hguard : ¬ (idx > (numbers.length : Int) - 1) := by omega
  have hfront := sliceTo_ok numbers idx h0 (by omega)
  have hback := sliceFrom_ok numbers (idx + 1) (by omega) (by omega)
  have hnat : (idx + 1).toNat = idx.toNat + 1 := by omega
  have herase : numbers.take idx.toNat ++ numbers.drop (idx.toNat + 1)
      = numbers.eraseIdx idx.toNat := (List.eraseIdx_eq_take_drop_succ _ _).symm
  unfold deleteFromDB
  rw [loadDB_ok J env fs fs1 dbPath data numbers hpath hread hdec]
  simp only [hguard, if_false, hfront, hback, hnat, herase]
  exact saveDB_ok J fs1 dbPath data _ hread

/-- C1: on a registry of length L and an index `0 <= idx < L`, `deleteFromDB`
succeeds and writes back, to the registry file and nowhere else, the
serialisation of the original sequence with the element at `idx` removed: it
has length L-1, its elements before `idx` are the original ones and its
elements from `idx` on are the original ones one position later. -/
theorem deleteFromDB_removes_index (J : EncodingJSON) (env : Env) (fs fs1 : FS)
    (dbPath data : String) (numbers : Numbers) (idx : Int)
    (hpath : getDBPath env fs = .ok (dbPath, fs1))
    (hread : ReadFile fs1 dbPath = .ok data)
    (hdec : J.Unmarshal data = some numbers)
    (h0 : 0 ≤ idx) (hlt : idx < numbers.length) :
    deleteFromDB J env idx fs
      = .ok (fs1.set dbPath (.file (J.Marshal (numbers.eraseIdx idx.toNat)))) ∧
    ReadFile (fs1.set dbPath (.file (J.Marshal (numbers.eraseIdx idx.toNat)))) dbPath
      = .ok (J.Marshal (numbers.eraseIdx idx.toNat)) ∧
    (numbers.eraseIdx idx.toNat).length = numbers.length - 1 ∧
    (∀ j : Nat, (numbers.eraseIdx idx.toNat)[j]? =
      if j < idx.toNat then numbers[j]? else numbers[j + 1]?) := by
  refine ⟨deleteFromDB_ok J env fs fs1 dbPath data numbers idx hpath hread hdec h0 hlt, ?_, ?_, ?_⟩
  · exact ReadFile_set _ _ _ (ReadFile_ne_empty _ _ _ hread).1
  · rw [List.length_eraseIdx]
    have : idx.toNat < numbers.length := by omega
    simp [this]
  · intro j
    exact List.getElem?_eraseIdx _ _ _

/-- A negative index passes the guard of `deleteFromDB` and panics in the
slice expression `numbers[:idx]`. -/
theorem deleteFromDB_below_zero (J : EncodingJSON) (env : Env) (fs fs1 : FS)
    (dbPath data : String) (numbers : Numbers) (idx : Int)
    (hpath : getDBPath env fs = .ok (dbPath, fs1))
    (hread : ReadFile fs1 dbPath = .ok data)
    (hdec : J.Unmarshal data = some numbers)
    (hneg : idx < 0) :
    deleteFromDB J env idx fs = .error sliceBoundsPanic := by
  have hguard : ¬ (idx > (numbers.length : Int) - 1) := by omega
  unfold deleteFromDB
  rw [loadDB_ok J env fs fs1 dbPath data numbers hpath hread hdec]
  simp [hguard, sliceTo, hneg]

/-- An index at or past the length is refused by the guard of
`deleteFromDB`, before anything is written. -/
theorem deleteFromDB_past_end (J : EncodingJSON) (env : Env) (fs fs1 : FS)
    (dbPath data : String) (numbers : Numbers) (idx : Int)
    (hpath : getDBPath env fs = .ok (dbPath, fs1))
    (hread : ReadFile fs1 dbPath = .ok data)
    (hdec : J.Unmarshal data = some numbers)
    (hge : (numbers.length : Int) ≤ idx) :
    deleteFromDB J env idx fs
      = .error (.fatal "Number does not exist to be deleted from DB\n") := by
  have hguard : idx > (numbers.length : Int) - 1 := by omega
  unfold deleteFromDB
  rw [loadDB_ok J env fs fs1 dbPath data numbers hpath hread hdec]
  simp [hguard]

/-- Append then read, for any codec that reads back what it wrote for
`s ++ [r]`: `addToDB r` overwrites the registry file with the serialisation of
`s ++ [r]` and a following `getFromDB` returns `s ++ [r]` without touching
the state again. -/
theorem addToDB_getFromDB_of_codec (J : EncodingJSON) (env : Env) (fs fs1 : FS)
    (dbPath data : String) (s : Numbers) (r : Number)
    (hpath : getDBPath env fs = .ok (dbPath, fs1))
    (hread : ReadFile fs1 dbPath = .ok data)
    (hdec : J.Unmarshal data = some s)
    (hcodec : J.Unmarshal (J.Marshal (s ++ [r])) = some (s ++ [r])) :
    addToDB J env r fs = .ok (fs1.set dbPath (.file (J.Marshal (s ++ [r])))) ∧
    getFromDB J env (fs1.set dbPath (.file (J.Marshal (s ++ [r]))))
      = .ok (s ++ [r], fs1.set dbPath (.file (J.Marshal (s ++ [r])))) := by
  constructor
  · unfold addToDB
    rw [loadDB_ok J env fs fs1 dbPath data s hpath hread hdec]
    exact saveDB_ok J fs1 dbPath data _ hread
  · unfold getFromDB
    rw [loadDB_ok J env _ _ dbPath (J.Marshal (s ++ [r])) (s ++ [r])
      (getDBPath_after_save env fs fs1 dbPath _ hpath)
      (ReadFile_set _ _ _ (ReadFile_ne_empty _ _ _ hread).1) hcodec]

/-- C3: for every stored registry `s` and every record `r`, `addToDB r`
succeeds and a following `getFromDB` returns `s ++ [r]`: a sequence of length
`|s| + 1` whose last element is `r` and whose first `|s|` elements are `s` in
their original order. -/
theorem addToDB_then_getFromDB (env : Env) (fs fs1 : FS)
    (dbPath data : String) (s : Numbers) (r : Number)
    (hpath : getDBPath env fs = .ok (dbPath, fs1))
    (hread : ReadFile fs1 dbPath = .ok data)
    (hdec : goJSON.Unmarshal data = some s) :
    ∃ fs2 out, addToDB goJSON env r fs = .ok fs2 ∧ getFromDB goJSON env fs2 = .ok (out, fs2) ∧
      out = s ++ [r] ∧ out.length = s.length + 1 ∧ out.getLast? = some r ∧
      out.take s.length = s := by
  obtain ⟨hadd, hget⟩ := addToDB_getFromDB_of_codec goJSON env fs fs1 dbPath data s r
    hpath hread hdec (goJSON_round_trip _)
  exact ⟨_, _, hadd, hget, rfl, by simp, by simp, by simp⟩

/-- C8: `getDBPath` is idempotent on the file system: running it again on
the state it leaves gives the same result and the same state (and a failing
first run is the whole run); every entry that existed before the call, the
registry file included, is left as it was; the content found in the registry
file afterwards is the old content, or the empty-array payload when the path
named nothing before. -/
theorem getDBPath_idempotent (env : Env) (fs : FS) :
    ((getDBPath env fs).bind fun r => getDBPath env r.2) = getDBPath env fs ∧
    ∀ p fs1, getDBPath env fs = .ok (p, fs1) →
      (∀ q, fs.get q ≠ none → fs1 q = fs q) ∧
      (∀ data, ReadFile fs1 p = .ok data →
        ReadFile fs p = .ok data ∨ (fs.get p = none ∧ data = emptyArray)) := by
  constructor
  · cases h : getDBPath env fs with
    | error e => rfl
    | ok r =>
      obtain ⟨p, fs1⟩ := r
      obtain ⟨hp, hd, hf, _, _⟩ := getDBPath_ok env fs fs1 p h
      have := getDBPath_stable env fs1 hd (by rw [← hp]; exact hf)
      rw [← hp] at this
      simpa [Except.bind] using this
  · intro p fs1 h
    obtain ⟨_, _, _, hkeep, hnew⟩ := getDBPath_ok env fs fs1 p h
    refine ⟨hkeep, ?_⟩
    intro data hread
    obtain ⟨hpne, hfile⟩ := ReadFile_ne_empty _ _ _ hread
    by_cases hex : fs.get p = none
    · right
      refine ⟨hex, ?_⟩
      rcases hnew hex with h1 | h1
      · rw [hfile] at h1; simpa using h1
      · rw [hfile] at h1; simp at h1
    · left
      have := hkeep p hex
      rw [hfile] at this
      simp [ReadFile, FS.get, hpne, ← this]

mutual
theorem findOnce_subtree (args : List String) (strict : Bool) :
    ∀ n : Node, findOnce args strict true n = n.subtree.find? (Node.matches strict args)
  | .element tag attr children => by
    have ih := findOnceList_subtree args strict children
    by_cases h : 0 < matchCount strict args tag attr
    · simp [findOnce, Node.subtree, Node.matches, Node.matchCount, h]
    · simp [findOnce, Node.subtree, Node.matches, Node.matchCount, h, ih]
  | .text d => by simp [findOnce, Node.subtree, Node.matches, Node.matchCount]
  | .comment d => by simp [findOnce, Node.subtree, Node.matches, Node.matchCount]
theorem findOnceList_subtree (args : List String) (strict : Bool) :
    ∀ cs : List Node,
      findOnceList args strict cs = (subtreeList cs).find? (Node.matches strict args)
  | [] => by simp [findOnceList, subtreeList]
  | c :: cs => by
    have ih1 := findOnce_subtree args strict c
    have ih2 := findOnceList_subtree args strict cs
    simp only [findOnceList, subtreeList, List.find?_append, ih1, ih2]
    cases List.find? (Node.matches strict args) c.subtree <;> simp
end

/-- `findOnce` from a node finds the first accepted node below it. -/
theorem findOnce_eq_firstMatch (args : List String) (strict : Bool) (n : Node) :
    findOnce args strict false n = firstMatch strict args n := by
  cases n with
  | element tag attr children =>
    simp [findOnce, firstMatch, Node.descendants, Node.children, findOnceList_subtree]
  | text d => simp [findOnce, firstMatch, Node.descendants, Node.children, subtreeList]
  | comment d => simp [findOnce, firstMatch, Node.descendants, Node.children, subtreeList]

mutual
theorem findAllofemFrom_subtree (args : List String) (strict : Bool) :
    ∀ n : Node, findAllofemFrom args strict true n
      = n.subtree.flatMap (fun m => List.replicate (m.matchCount strict args) m)
  | .element tag attr children => by
    have ih := findAllofemList_subtree args strict children
    simp [findAllofemFrom, Node.subtree, Node.matchCount, ih]
  | .text d => by simp [findAllofemFrom, Node.subtree, Node.matchCount]
  | .comment d => by simp [findAllofemFrom, Node.subtree, Node.matchCount]
theorem findAllofemList_subtree (args : List String) (strict : Bool) :
    ∀ cs : List Node, findAllofemList args strict cs
      = (subtreeList cs).flatMap (fun m => List.replicate (m.matchCount strict args) m)
  | [] => by simp [findAllofemList, subtreeList]
  | c :: cs => by
    have ih1 := findAllofemFrom_subtree args strict c
    have ih2 := findAllofemList_subtree args strict cs
    simp [findAllofemList, subtreeList, ih1, ih2]
end

/-- `findAllofem` from a node lists the accepted nodes below it in document
order. -/
theorem findAllofem_eq_allMatches (args : List String) (strict : Bool) (n : Node) :
    findAllofem n args strict = allMatches strict args n := by
  cases n with
  | element tag attr children =>
    simp [findAllofem, findAllofemFrom, allMatches, Node.descendants, Node.children,
      findAllofemList_subtree]
  | text d =>
    simp [findAllofem, findAllofemFrom, allMatches, Node.descendants, Node.children, subtreeList]
  | comment d =>
    simp [findAllofem, findAllofemFrom, allMatches, Node.descendants, Node.children, subtreeList]

theorem matches_tag (strict : Bool) (name : String) :
    Node.matches strict [name] = Node.isTag name := by
  funext n
  cases n with
  | element tag attr children =>
    by_cases h : tag = name <;> simp [Node.matches, Node.matchCount, matchCount, Node.isTag, h]
  | text d => simp [Node.matches, Node.matchCount, Node.isTag]
  | comment d => simp [Node.matches, Node.matchCount, Node.isTag]

/-- A tag-only search accepts exactly the elements with that tag, once each. -/
theorem firstMatch_tag (strict : Bool) (name : String) (n : Node) :
    firstMatch strict [name] n = firstTag name n := by
  simp [firstMatch, firstTag, matches_tag]

theorem allMatches_tag (strict : Bool) (name : String) (n : Node) :
    allMatches strict [name] n = allTags name n := by
  unfold allMatches allTags
  induction n.descendants with
  | nil => rfl
  | cons m ms ih =>
    simp only [List.flatMap_cons, List.filter_cons, ih]
    cases m with
    | element tag attr children =>
      by_cases h : tag = name <;> simp [Node.matchCount, matchCount, Node.isTag, h]
    | text d => simp [Node.matchCount, Node.isTag]
    | comment d => simp [Node.matchCount, Node.isTag]

/-- A tag-only `Find` below a node is the first such element in document
order. -/
theorem findOnce_eq_firstTag (name : String) (strict : Bool) (n : Node) :
    findOnce [name] strict false n = firstTag name n := by
  rw [findOnce_eq_firstMatch, firstMatch_tag]

/-- A tag-only `FindAll` below a node is the list of all such elements in
document order. -/
theorem findAllofem_eq_allTags (name : String) (strict : Bool) (n : Node) :
    findAllofem n [name] strict = allTags name n := by
  rw [findAllofem_eq_allMatches, allMatches_tag]

mutual
theorem fullText_eq : ∀ n : Node, fullText n = n.subtree.flatMap Node.textData
  | .element tag attr children => by
    have ih := fullTextList_eq children
    simp [fullText, Node.subtree, Node.textData, ih]
  | .text d => by simp [fullText, Node.subtree, Node.textData]
  | .comment d => by simp [fullText, Node.subtree, Node.textData]
theorem fullTextList_eq : ∀ cs : List Node,
    fullTextList cs = (subtreeList cs).flatMap Node.textData
  | [] => by simp [fullTextList, subtreeList]
  | c :: cs => by
    have ih1 := fullText_eq c
    have ih2 := fullTextList_eq cs
    simp [fullTextList, subtreeList, ih1, ih2]
end

/-- `FullText` of a found node is its full inner text. -/
theorem FullText_ofNode (n : Node) : (Root.ofNode n).FullText = .ok (innerText n) := by
  simp [Root.FullText, Root.ofNode, innerText, Node.descendants, fullTextList_eq]

/-! ## The scrapers: theorems -/

theorem ofNode_Error (n : Node) : (Root.ofNode n).Error = none := rfl

theorem notFound_Error (args : List String) : (Root.notFound args).Error ≠ none := by
  simp [Root.notFound]

theorem Find_ofNode (n : Node) (name : String) :
    (Root.ofNode n).Find [name] =
      .ok (match firstTag name n with
        | some t => Root.ofNode t
        | none => Root.notFound [name]) := by
  simp only [Root.Find, Root.findWith, Root.ofNode, findOnce_eq_firstTag]
  cases firstTag name n <;> rfl

theorem FindAll_ofNode (n : Node) (name : String) :
    (Root.ofNode n).FindAll [name] = .ok ((allTags name n).map Root.ofNode) := by
  simp [Root.FindAll, Root.findAllWith, Root.ofNode, findAllofem_eq_allTags]

theorem messageLoop_eq (rows : List Node) (messages : List Message) :
    messageLoop (rows.map Root.ofNode) messages = .ok (messages ++ rows.filterMap rowMessage) := by
  induction rows generalizing messages with
  | nil => simp [messageLoop]
  | cons row rest ih =>
    simp only [List.map_cons, messageLoop, FindAll_ofNode, List.length_map]
    rcases hcells : allTags "td" row with _ | ⟨c0, _ | ⟨c1, _ | ⟨c2, more⟩⟩⟩
    · simp [rowMessage, hcells, ih]
    · simp [rowMessage, hcells, ih]
    · simp [rowMessage, hcells, ih]
    · simp [rowMessage, hcells, ih, index, FullText_ofNode]

/-- C4 (as amended): in a document whose first table has a body section,
message extraction succeeds and returns, in document order, one record for
each `tr` element below the body that has at least three `td` elements below
it at any depth, made of the full inner texts of the first three of those
`td` elements; a `tr` with fewer than three `td` elements below it yields
nothing.  The `td` elements of a table nested in a cell count for the
enclosing row, and `th` elements never count. -/
theorem extractMessages_rows (doc table tbody : Node)
    (htable : firstTag "table" doc = some table)
    (htbody : firstTag "tbody" table = some tbody) :
    extractMessages (Root.ofNode doc)
      = .ok ((allTags "tr" tbody).filterMap rowMessage) ∧
    (∀ row, (allTags "td" row).length < 3 → rowMessage row = none) ∧
    (∀ row, 3 ≤ (allTags "td" row).length →
      ∃ c0 c1 c2, (allTags "td" row)[0]? = some c0 ∧ (allTags "td" row)[1]? = some c1 ∧
        (allTags "td" row)[2]? = some c2 ∧
        rowMessage row = some
          { Originator := innerText c0, Body := innerText c1, CreatedAt := innerText c2 }) := by
  refine ⟨?_, ?_, ?_⟩
  · have := messageLoop_eq (allTags "tr" tbody) []
    simpa [extractMessages, Find_ofNode, htable, htbody, ofNode_Error, FindAll_ofNode]
      using this
  · intro row h
    rcases hcells : allTags "td" row with _ | ⟨c0, _ | ⟨c1, _ | ⟨c2, more⟩⟩⟩ <;>
      simp [rowMessage, hcells] at h ⊢
    omega
  · intro row h
    rcases hcells : allTags "td" row with _ | ⟨c0, _ | ⟨c1, _ | ⟨c2, more⟩⟩⟩ <;>
      simp [rowMessage, hcells] at h ⊢

/-- C9: a document with no `table` element, or whose first table has no
`tbody` element below it, makes message extraction end in the fatal failure
`Failed to load messages`; no sequence, empty or not, is returned. -/
theorem extractMessages_layout_missing (doc : Node)
    (h : allTags "table" doc = [] ∨
      ∃ table, firstTag "table" doc = some table ∧ allTags "tbody" table = []) :
    extractMessages (Root.ofNode doc) = .error (.fatal "Failed to load messages\n") := by
  rcases h with h | ⟨table, ht, hb⟩
  · have hnone : firstTag "table" doc = none := by
      unfold firstTag; unfold allTags at h
      rw [List.find?_eq_none]
      intro x hx hp
      have : x ∈ List.filter (Node.isTag "table") doc.descendants := List.mem_filter.2 ⟨hx, hp⟩
      rw [h] at this
      exact absurd this (List.not_mem_nil _)
    simp [extractMessages, Find_ofNode, hnone, notFound_Error]
  · have hnone : firstTag "tbody" table = none := by
      unfold firstTag; unfold allTags at hb
      rw [List.find?_eq_none]
      intro x hx hp
      have : x ∈ List.filter (Node.isTag "tbody") table.descendants := List.mem_filter.2 ⟨hx, hp⟩
      rw [hb] at this
      exact absurd this (List.not_mem_nil _)
    simp [extractMessages, Find_ofNode, ht, hnone, notFound_Error, ofNode_Error]

theorem FindStrict_ofNode (n : Node) (args : List String) :
    (Root.ofNode n).FindStrict args =
      .ok (match firstMatch true args n with
        | some t => Root.ofNode t
        | none => Root.notFound args) := by
  simp only [Root.FindStrict, Root.findWith, Root.ofNode, findOnce_eq_firstMatch]
  cases firstMatch true args n <;> rfl

theorem Text_ofNode (n : Node) : (Root.ofNode n).Text = .ok (textOf n.children) := rfl

theorem numberLoop_eq (clock : Nat → String) (items : List Node) (numbers : List Number) :
    numberLoop clock (items.map Root.ofNode) numbers
      = .ok (numbers ++ stamp clock numbers.length (items.filterMap itemFields)) := by
  induction items generalizing numbers with
  | nil => simp [numberLoop, stamp]
  | cons item rest ih =>
    simp only [List.map_cons, numberLoop, FindStrict_ofNode]
    cases hrow : firstMatch true ["div", "class", "row"] item with
    | none => simp [itemFields, hrow, notFound_Error, ih]
    | some row =>
      simp only [hrow, ofNode_Error, if_true, FindStrict_ofNode, firstMatch_tag]
      cases h4 : firstTag "h4" row with
      | none =>
        cases h5 : firstTag "h5" row <;>
          simp [itemFields, hrow, h4, h5, notFound_Error, ofNode_Error, ih]
      | some n4 =>
        cases h5 : firstTag "h5" row with
        | none => simp [itemFields, hrow, h4, h5, notFound_Error, ofNode_Error, ih]
        | some n5 =>
          simp [itemFields, hrow, h4, h5, ofNode_Error, Text_ofNode, ih, stamp]

theorem stamp_fields (clock : Nat → String) (start : Nat) (fields : List (String × String)) :
    (stamp clock start fields).map (fun n => (n.Number, n.Country)) = fields ∧
    (stamp clock start fields).length = fields.length ∧
    ∀ k, ((stamp clock start fields)[k]?).map (fun n => n.CreatedAt)
      = if k < fields.length then some (clock (start + k)) else none := by
  induction fields generalizing start with
  | nil => simp [stamp]
  | cons f rest ih =>
    obtain ⟨n, c⟩ := f
    obtain ⟨h1, h2, h3⟩ := ih (start + 1)
    refine ⟨by simp [stamp, h1], by simp [stamp, h2], ?_⟩
    intro k
    cases k with
    | zero => simp [stamp]
    | succ k =>
      have := h3 k
      simp only [stamp, List.getElem?_cons_succ, List.length_cons, Nat.add_lt_add_iff_right]
      rw [this]
      have e : start + 1 + k = start + (k + 1) := by omega
      rw [e]

theorem length_filterMap_eq {α β : Type} (f : α → Option β) (xs : List α) :
    (xs.filterMap f).length = (xs.filter (fun x => (f x).isSome)).length := by
  induction xs with
  | nil => rfl
  | cons x rest ih =>
    cases h : f x <;> simp [List.filterMap_cons, List.filter_cons, h, ih]

/-- C6 (as amended): on a document with a listing container, number
extraction succeeds and returns exactly one record for each valid item (an
item with the nested row and, in it, an `h4` and an `h5`), in document
order, and none for the other items; the number and country of a record are
the texts `Text()` gives for the item's `h4` and `h5`, which may be empty;
the time stamps are the successive readings of the clock. -/
theorem extractAvailableNumbers_valid_items (clock : Nat → String) (doc container : Node)
    (hcontainer : listingContainer doc = some container) :
    ∃ numbers, extractAvailableNumbers clock (Root.ofNode doc) = .ok numbers ∧
      numbers.map (fun n => (n.Number, n.Country))
        = (listingItems container).filterMap itemFields ∧
      numbers.length
        = ((listingItems container).filter (fun item => (itemFields item).isSome)).length ∧
      ∀ k, (numbers[k]?).map (fun n => n.CreatedAt)
        = if k < numbers.length then some (clock k) else none := by
  have hrun : extractAvailableNumbers clock (Root.ofNode doc)
      = .ok (stamp clock 0 ((listingItems container).filterMap itemFields)) := by
    unfold listingContainer at hcontainer
    have hfind : (Root.ofNode doc).Find ["div", "class", "number-boxes"]
        = .ok (Root.ofNode container) := by
      simp [Root.Find, Root.findWith, Root.ofNode, findOnce_eq_firstMatch, hcontainer]
    have hall : (Root.ofNode container).FindAllStrict
        ["div", "class", "number-boxes-item d-flex flex-column "]
        = .ok ((listingItems container).map Root.ofNode) := by
      simp [Root.FindAllStrict, Root.findAllWith, Root.ofNode, findAllofem_eq_allMatches,
        listingItems]
    have := numberLoop_eq clock (listingItems container) []
    simp only [extractAvailableNumbers, hfind, hall]
    simpa using this
  obtain ⟨h1, h2, h3⟩ := stamp_fields clock 0 ((listingItems container).filterMap itemFields)
  refine ⟨_, hrun, h1, ?_, ?_⟩
  · rw [h2]
    exact length_filterMap_eq _ _
  · intro k
    rw [h3 k, h2]
    simp

/-- Without a listing container the chained `FindAllStrict` runs on a root
without a node and panics. -/
theorem extractAvailableNumbers_no_container (clock : Nat → String) (doc : Node)
    (h : listingContainer doc = none) :
    extractAvailableNumbers clock (Root.ofNode doc) = .error nilDerefPanic := by
  unfold listingContainer at h
  have hfind : (Root.ofNode doc).Find ["div", "class", "number-boxes"]
      = .ok (Root.notFound ["div", "class", "number-boxes"]) := by
    simp [Root.Find, Root.findWith, Root.ofNode, findOnce_eq_firstMatch, h]
  simp [extractAvailableNumbers, hfind, Root.FindAllStrict, Root.findAllWith, Root.notFound]

/-- `ScrapeMessagesForNumber` fetches the listing page for its cookie, then
the address `requestURL number` under that cookie, and extracts the messages
from the parsed answer. -/
theorem ScrapeMessagesForNumber_eq (web : Web) (jar cookies : List (String × String))
    (number response : String)
    (hget : web.Get pageURL = some cookies)
    (hpage : web.soupGet (setCookie jar cookieName (cookieValueOf cookies)) (requestURL number)
      = .ok response) :
    ScrapeMessagesForNumber web jar number = extractMessages (web.HTMLParse response) := by
  simp [ScrapeMessagesForNumber, hget, hpage]

/-- `ScrapeAvailableNumbers` fetches the listing page and extracts the numbers
from the parsed answer. -/
theorem ScrapeAvailableNumbers_eq (web : Web) (jar : List (String × String))
    (clock : Nat → String) (response : String)
    (hpage : web.soupGet jar pageURL = .ok response) :
    ScrapeAvailableNumbers web jar clock = extractAvailableNumbers clock (web.HTMLParse response) := by
  simp [ScrapeAvailableNumbers, hpage]

theorem replaceLoop_plus (fuel : Nat) (s : List Char) (h : s.length ≤ fuel) :
    replaceLoop ['+'] [] fuel s = s.filter (fun c => c != '+') := by
  induction s generalizing fuel with
  | nil => cases fuel <;> simp [replaceLoop]
  | cons c cs ih =>
    cases fuel with
    | zero => simp at h
    | succ fuel =>
      have hlen : cs.length ≤ fuel := by simpa using h
      by_cases hc : c = '+'
      · subst hc
        simp [replaceLoop, List.isPrefixOf, ih fuel hlen]
      · have hc2 : ¬ ('+' = c) := fun e => hc e.symm
        simp [replaceLoop, List.isPrefixOf, hc, hc2, ih fuel hlen]

theorem ReplaceAll_plus (number : String) :
    ReplaceAll number "+" "" = String.mk (number.data.filter (fun c => c != '+')) := by
  have h1 : ¬ ("+" = "") := by decide
  simp only [ReplaceAll, h1, if_false]
  congr 1
  exact replaceLoop_plus _ _ (le_refl _)

/-- C7 (as amended): the address of the per-number page is the base address,
then `sms/`, then the number with every `+` removed, then `/`; when the
number has no `+` after its first character this is the number with only a
leading `+` stripped. -/
theorem requestURL_removes_every_plus (number : String) :
    requestURL number
      = pageURL ++ smsEndpoint ++ String.mk (number.data.filter (fun c => c != '+')) ++ "/" ∧
    ((∀ c ∈ number.data.tail, c ≠ '+') →
      requestURL number = pageURL ++ smsEndpoint ++ stripLeadingPlus number ++ "/") := by
  have hurl : requestURL number
      = pageURL ++ smsEndpoint ++ String.mk (number.data.filter (fun c => c != '+')) ++ "/" := by
    simp [requestURL, ReplaceAll_plus]
  refine ⟨hurl, ?_⟩
  intro htail
  rw [hurl]
  congr 2
  have hfilter : ∀ cs : List Char, (∀ c ∈ cs, c ≠ '+') → cs.filter (fun c => c != '+') = cs := by
    intro cs hcs
    rw [List.filter_eq_self]
    intro c hc
    simpa using hcs c hc
  unfold stripLeadingPlus
  rcases hdata : number.data with _ | ⟨c, cs⟩
  · have : number = String.mk [] := by cases number; simp_all
    subst this; rfl
  · rw [hdata] at htail
    simp only [List.tail_cons] at htail
    by_cases hc : c = '+'
    · subst hc
      simp [hfilter cs htail]
    · have : number = String.mk (c :: cs) := by cases number; simp_all
      have hne : (c != '+') = true := by simpa using hc
      simp only [List.filter_cons, hne, if_true, hfilter cs htail]
      split
      · rename_i rest heq
        simp at heq
        exact absurd heq.1 hc
      · exact this.symm

theorem requestURL_removes_every_plus_witness :
    requestURL "+15551234567" = "https://receive-smss.com/sms/15551234567/" :=
  ((requestURL_removes_every_plus "+15551234567").2 (by decide)).trans (by decide)

/-- C7, counterexample: for the number `+1+2` the address built by the code
ends in `sms/12/`, while stripping only the leading `+` gives `sms/1+2/`. -/
theorem requestURL_inner_plus :
    requestURL "+1+2" = "https://receive-smss.com/sms/12/" ∧
    pageURL ++ smsEndpoint ++ stripLeadingPlus "+1+2" ++ "/" = "https://receive-smss.com/sms/1+2/" ∧
    requestURL "+1+2" ≠ pageURL ++ smsEndpoint ++ stripLeadingPlus "+1+2" ++ "/" := by
  decide

/-! ## Runs on concrete states -/

theorem registryFS_path : getDBPath homeEnv registryFS = .ok (homeDB, registryFS) :=
  getDBPath_stable homeEnv registryFS (by decide) (by decide)

set_option maxRecDepth 8000 in
theorem registryFS_read :
    ReadFile registryFS homeDB = .ok (jsonMarshal [usRecord, ukRecord]) := by
  decide

theorem registryFS_decode :
    goJSON.Unmarshal (jsonMarshal [usRecord, ukRecord]) = some [usRecord, ukRecord] :=
  goJSON_round_trip [usRecord, ukRecord]

theorem singleFS_path : getDBPath homeEnv singleFS = .ok (homeDB, singleFS) :=
  getDBPath_stable homeEnv singleFS (by decide) (by decide)

set_option maxRecDepth 8000 in
theorem singleFS_read : ReadFile singleFS homeDB = .ok (jsonMarshal [usRecord]) := by
  decide

theorem singleFS_decode : goJSON.Unmarshal (jsonMarshal [usRecord]) = some [usRecord] :=
  goJSON_round_trip [usRecord]

/-- C1, witness: deleting position 0 of the two-record registry writes back
the registry that holds the second record only. -/
theorem deleteFromDB_removes_index_witness :
    deleteFromDB goJSON homeEnv 0 registryFS
      = .ok (registryFS.set homeDB (.file (goJSON.Marshal [ukRecord]))) :=
  (deleteFromDB_removes_index goJSON homeEnv registryFS registryFS homeDB _
    [usRecord, ukRecord] 0 registryFS_path registryFS_read registryFS_decode
    (by decide) (by decide)).1

/-- C2, at the failing input: on the two-record registry, index -1 passes
the guard and ends in the slice-bounds panic, which is not the fatal failure
the guard raises for index 2. -/
theorem deleteFromDB_negative_index :
    deleteFromDB goJSON homeEnv (-1) registryFS = .error sliceBoundsPanic ∧
    deleteFromDB goJSON homeEnv 2 registryFS
      = .error (.fatal "Number does not exist to be deleted from DB\n") ∧
    sliceBoundsPanic ≠ .fatal "Number does not exist to be deleted from DB\n" :=
  ⟨deleteFromDB_below_zero goJSON homeEnv registryFS registryFS homeDB _ [usRecord, ukRecord] (-1)
      registryFS_path registryFS_read registryFS_decode (by decide),
   deleteFromDB_past_end goJSON homeEnv registryFS registryFS homeDB _ [usRecord, ukRecord] 2
      registryFS_path registryFS_read registryFS_decode (by decide),
   by decide⟩

/-- C3, witness: adding the second record to the one-record registry and
reading back. -/
theorem addToDB_then_getFromDB_witness :
    ∃ fs2 out, addToDB goJSON homeEnv ukRecord singleFS = .ok fs2 ∧
      getFromDB goJSON homeEnv fs2 = .ok (out, fs2) ∧ out = [usRecord, ukRecord] :=
  match addToDB_then_getFromDB homeEnv singleFS singleFS homeDB _ [usRecord] ukRecord
    singleFS_path singleFS_read singleFS_decode with
  | ⟨fs2, out, hadd, hget, hout, _⟩ => ⟨fs2, out, hadd, hget, hout⟩

/-- C5, at the failing input: with `FAKE_SMS_DB_DIR=/data` the path returned
is `/data/db.json`, not the documented `/data/.fake-sms/db.json`; with only
`HOME` set the two agree. -/
theorem getDBPath_skips_dot_dir :
    (getDBPath dirEnv emptyFS).map Prod.fst = .ok "/data/db.json" ∧
    documentedDBPath dirEnv = "/data/.fake-sms/db.json" ∧
    (getDBPath homeEnv emptyFS).map Prod.fst = .ok (documentedDBPath homeEnv) := by
  decide

/-- C8, witness: on the empty file system the first run creates the file
with the empty-array payload and the second run changes nothing. -/
theorem getDBPath_idempotent_witness :
    ((getDBPath homeEnv emptyFS).bind fun r => getDBPath homeEnv r.2) = getDBPath homeEnv emptyFS ∧
    (getDBPath homeEnv emptyFS).map (fun r => ReadFile r.2 r.1) = .ok (.ok emptyArray) :=
  ⟨(getDBPath_idempotent homeEnv emptyFS).1, by decide⟩

/-- C4, witness: the example page yields the two rows with three or more
`td` elements, in order, with nested markup flattened. -/
theorem extractMessages_rows_witness :
    extractMessages (Root.ofNode messagePage)
      = .ok [{ Originator := "Bank", Body := "Your code is 1234", CreatedAt := "1 minute ago" },
             { Originator := "+15550100", Body := "hello", CreatedAt := "2 hours ago" }] :=
  (extractMessages_rows messagePage messageTable messageBody rfl rfl).1.trans (by decide)

/-- C4, counterexample: the outer row of `nestedPage` has two cells of its
own, so in the words of the claim it contributes no record and only the
nested row does; the code counts the five `td` elements below it and returns
a record for it, whose time is the text of a nested cell.  The row of
`headerPage` has four cells of its own, so the claim gives it a record; the
code counts its two `td` elements and returns nothing. -/
theorem extractMessages_nested_cells :
    (ownCells nestedRow).length = 2 ∧
    claimedMessages nestedBody
      = [{ Originator := "n0", Body := "n1", CreatedAt := "n2" }] ∧
    extractMessages (Root.ofNode nestedPage)
      = .ok [{ Originator := "A", Body := "Bn0n1n2", CreatedAt := "n0" },
             { Originator := "n0", Body := "n1", CreatedAt := "n2" }] ∧
    claimedMessages headerBody
      = [{ Originator := "From", Body := "Text", CreatedAt := "x" }] ∧
    extractMessages (Root.ofNode headerPage) = .ok [] := by
  decide

/-- C9, witness: a page without a table, and a page whose table has no body
section. -/
theorem extractMessages_layout_missing_witness :
    extractMessages (Root.ofNode barePage) = .error (.fatal "Failed to load messages\n") ∧
    extractMessages (Root.ofNode headOnlyPage)
      = .error (.fatal "Failed to load messages\n") :=
  ⟨extractMessages_layout_missing barePage (Or.inl rfl),
   extractMessages_layout_missing headOnlyPage (Or.inr ⟨_, rfl, rfl⟩)⟩

/-- C6, witness: the page with two valid items around a malformed one yields
the two records, in order. -/
theorem extractAvailableNumbers_valid_items_witness :
    ∃ numbers, extractAvailableNumbers fixedClock (Root.ofNode mixedPage) = .ok numbers ∧
      numbers.map (fun n => (n.Number, n.Country))
        = [("+15551234567", "United States"), ("+447700900123", "United Kingdom")] :=
  match extractAvailableNumbers_valid_items fixedClock mixedPage _ rfl with
  | ⟨numbers, hrun, hfields, _, _⟩ => ⟨numbers, hrun, hfields.trans (by decide)⟩

/-- C6, counterexample: the only item of the page is valid (it has the row,
the `h4` and the `h5`), one record is returned for it, and its number is the
empty string. -/
theorem extractAvailableNumbers_empty_number :
    ((listingContainer emptyNumberPage).map fun c => (listingItems c).map itemFields)
      = some [some ("", "United States")] ∧
    extractAvailableNumbers fixedClock (Root.ofNode emptyNumberPage)
      = .ok [{ Country := "United States", Number := "", CreatedAt := fixedClock 0 }] := by
  decide

/-- C10, at the failing input: on a page without the listing container the
run ends in the nil-pointer panic, not in a fatal failure of the program's
own. -/
theorem extractAvailableNumbers_container_missing :
    listingContainer barePage = none ∧
    extractAvailableNumbers fixedClock (Root.ofNode barePage) = .error nilDerefPanic ∧
    (∀ msg, nilDerefPanic ≠ .fatal msg) :=
  ⟨rfl, extractAvailableNumbers_no_container fixedClock barePage rfl, by intro msg; simp [nilDerefPanic]⟩

/-- The end-to-end example of the specification: with the registry file
missing, adding the record creates the file and stores the record, reading
returns a one-element sequence equal to it, and after deleting position 0
reading returns the empty sequence. -/
theorem end_to_end_example :
    ∃ fs1 fs2, addToDB goJSON homeEnv usRecord emptyFS = .ok fs1 ∧
      getFromDB goJSON homeEnv fs1 = .ok ([usRecord], fs1) ∧
      deleteFromDB goJSON homeEnv 0 fs1 = .ok fs2 ∧
      getFromDB goJSON homeEnv fs2 = .ok ([], fs2) := by
  have hpath0 : getDBPath homeEnv emptyFS = .ok (homeDB, freshFS) := rfl
  have hread0 : ReadFile freshFS homeDB = .ok emptyArray := by decide
  have hdec0 : goJSON.Unmarshal emptyArray = some [] := by decide
  obtain ⟨hadd, hget⟩ := addToDB_getFromDB_of_codec goJSON homeEnv emptyFS freshFS homeDB
    emptyArray [] usRecord hpath0 hread0 hdec0 (goJSON_round_trip _)
  have hpath1 := getDBPath_after_save homeEnv emptyFS freshFS homeDB
    (goJSON.Marshal ([] ++ [usRecord])) hpath0
  have hread1 : ReadFile (freshFS.set homeDB (.file (goJSON.Marshal ([] ++ [usRecord])))) homeDB
      = .ok (goJSON.Marshal ([] ++ [usRecord])) := ReadFile_set _ _ _ (by decide)
  have hdel := deleteFromDB_ok goJSON homeEnv _ _ homeDB _ ([] ++ [usRecord]) 0
    hpath1 hread1 (goJSON_round_trip _) (by decide) (by decide)
  have hpath2 := getDBPath_after_save homeEnv _ _ homeDB
    (goJSON.Marshal (([] ++ [usRecord]).eraseIdx (0 : Int).toNat)) hpath1
  refine ⟨_, _, hadd, hget, hdel, ?_⟩
  unfold getFromDB
  rw [loadDB_ok goJSON homeEnv _ _ homeDB _ [] hpath2 (ReadFile_set _ _ _ (by decide))
    (goJSON_round_trip _)]

end FakeSMS
